import Mathlib

/-
Verification model of src/source/kernel/trace_inode.c (standalone-linux-io-tracer):
the inode identity cache (hash table with collision lists plus LRU eviction),
the fsnotify-based filesystem monitor, and the inode path-resolution walk that
emits FileNameEvent records.

Machine integers are modelled as Nat with explicit reduction mod 2^64 where the
code relies on 64-bit wraparound (the hash multiply).  The intrusive kernel
lists (struct list_head lru, struct hlist_node hash) are modelled as lists of
arena indices: Tracer.lru is the LRU list (head = most recently used, since
list_add inserts at the head and list_last_entry takes the eviction victim) and
Tracer.buckets are the hash-bucket chains (head = most recently hashed, since
hlist_add_head inserts at the head).
-/

set_option maxHeartbeats 1000000
set_option maxRecDepth 100000

namespace InodeTrace

/-- Seconds and nanoseconds pair mirroring struct timespec; the code copies
tv_sec and tv_nsec field-wise between kernel timespec flavours. -/
structure timespec where
  tv_sec : Int
  tv_nsec : Int
deriving DecidableEq, Repr

instance : Inhabited timespec := ⟨⟨0, 0⟩⟩

/-- An inode as far as trace_inode.c reads it: identity (i_ino plus the owning
superblock's device id i_sb->s_dev), the i_ctime creation stamp, and the
S_ISDIR bit of i_mode. -/
structure Inode where
  i_ino : Nat
  s_dev : Nat
  i_ctime : timespec
  is_dir : Bool
deriving DecidableEq, Repr

instance : Inhabited Inode := ⟨⟨0, 0, ⟨0, 0⟩, false⟩⟩

/-- Payload of struct cache_entry: inode id, ctime stamp and device id.  The
intrusive lru / hash nodes are modelled by the index lists of Tracer. -/
structure cache_entry where
  inode_id : Nat
  ctime : timespec
  device_id : Nat
deriving DecidableEq, Repr

/-- Entries start zeroed: the arena is allocated with vzalloc_node. -/
def zero_entry : cache_entry := ⟨0, ⟨0, 0⟩, 0⟩

instance : Inhabited cache_entry := ⟨zero_entry⟩

def CACHE_HASH_BITS : Nat := 10

/-- CACHE_HASH_SIZE is defined in the source as 2ULL << CACHE_HASH_BITS. -/
def CACHE_HASH_SIZE : Nat := 2 <<< CACHE_HASH_BITS

/-- CACHE_SIZE = CACHE_HASH_SIZE * 4ULL, the number of arena entries. -/
def CACHE_SIZE : Nat := CACHE_HASH_SIZE * 4

/-- Number of hash-bucket heads actually allocated by
DECLARE_HASHTABLE(hash_table, CACHE_HASH_BITS), namely 1 << CACHE_HASH_BITS
entries of struct hlist_head (linux/hashtable.h). -/
def CACHE_HASH_BUCKETS : Nat := 1 <<< CACHE_HASH_BITS

/-- The 64-bit multiplier GOLDEN_RATIO_64 of hash_64 (linux/hash.h). -/
def hash64_multiplier : Nat := 0x61C8864680B583EB

/-- Bucket index used by hash_add and hash_for_each_possible for key i_ino:
hash_min on the 64-bit key is hash_64(key, HASH_BITS(table)) =
(key * GOLDEN_RATIO_64) >> (64 - bits) in 64-bit arithmetic, with
HASH_BITS(hash_table) = ilog2(1 << CACHE_HASH_BITS) = CACHE_HASH_BITS. -/
def hash_idx (ino : Nat) : Nat :=
  (ino * hash64_multiplier % 2 ^ 64) >>> (64 - CACHE_HASH_BITS)

/-- State of struct iotrace_inode_tracer: the entry arena entries[...], the
LRU list of arena indices, the hash table as per-bucket lists of arena
indices, and whether the fs monitor path is active for this tracer
(inode_tracer->fsm != NULL together with fsnotify_ops.inited). -/
structure Tracer where
  data : List cache_entry
  lru : List Nat
  buckets : List (List Nat)
  fsm_present : Bool
deriving DecidableEq, Repr

/-- Chain of the hash bucket b (out-of-range buckets read as empty). -/
def bkt (s : Tracer) (b : Nat) : List Nat := s.buckets.getD b []

/-- All bucket chains flattened: the indices of the mapped entries. -/
def bucketsJoin (s : Tracer) : List Nat := s.buckets.flatten

/-- Number of live hash-table mappings. -/
def live_mappings (s : Tracer) : Nat := (bucketsJoin s).length

/-- iotrace_create_inode_tracer: vzalloc of the tracer (all entries zeroed),
hash_init (all buckets empty), then the loop list_add-ing every entry into the
LRU list (entry 0 is added first and therefore ends at the LRU tail).  The
arena size is a parameter n here; the code instantiates it with CACHE_SIZE. -/
def iotrace_create_inode_tracer (n : Nat) (fsm : Bool) : Tracer :=
  { data := List.replicate n zero_entry
    lru := (List.range n).foldl (fun l i => i :: l) []
    buckets := List.replicate CACHE_HASH_BUCKETS []
    fsm_present := fsm }

/-- set_hot: list_del of the entry's lru node followed by list_add at the
head of the LRU list. -/
def _set_hot (s : Tracer) (j : Nat) : Tracer :=
  { s with lru := j :: s.lru.erase j }

/-- Bucket side of hash_del: unlink index j from whichever bucket chain holds
it (a no-op on chains that do not). -/
def bucket_del (bs : List (List Nat)) (j : Nat) : List (List Nat) :=
  bs.map (fun b => b.erase j)

/-- get_entry: take the LRU tail (list_last_entry) as the eviction victim,
list_del it from the LRU list and hash_del it from its bucket chain. -/
def _get_entry (s : Tracer) : Nat × Tracer :=
  (s.lru.getLastD 0,
   { s with
     lru := s.lru.dropLast
     buckets := bucket_del s.buckets (s.lru.getLastD 0) })

/-- The cache_entry payload recorded by map for an inode. -/
def entry_of (i : Inode) : cache_entry := ⟨i.i_ino, i.i_ctime, i.s_dev⟩

/-- map: take the victim via get_entry, fill it with the inode's identity and
ctime, list_add it at the LRU head and hash_add it (hlist_add_head) to bucket
hash_idx(i_ino). -/
def _map (s : Tracer) (i : Inode) : Tracer :=
  let v := (_get_entry s).1
  let s1 := (_get_entry s).2
  let bi := hash_idx i.i_ino
  { s1 with
    data := s1.data.set v (entry_of i)
    lru := v :: s1.lru
    buckets := s1.buckets.set bi (v :: s1.buckets.getD bi []) }

/-- remove_entry: list_del plus hash_del, then list_add_tail back onto the LRU
list, returning the stale entry to the free pool at the eviction end. -/
def _remove_entry (s : Tracer) (j : Nat) : Tracer :=
  { s with
    lru := s.lru.erase j ++ [j]
    buckets := bucket_del s.buckets j }

/-- Identity test of lookup: inode id and device id both equal. -/
def id_matches (e : cache_entry) (i : Inode) : Prop :=
  e.inode_id = i.i_ino ∧ e.device_id = i.s_dev

instance (e : cache_entry) (i : Inode) : Decidable (id_matches e i) := by
  unfold id_matches; infer_instance

/-- Full hit test of lookup: identity plus the ctime generation stamp. -/
def entry_matches (e : cache_entry) (i : Inode) : Prop :=
  id_matches e i ∧ e.ctime = i.i_ctime

instance (e : cache_entry) (i : Inode) : Decidable (entry_matches e i) := by
  unfold entry_matches; infer_instance

/-- Body of lookup's hash_for_each_possible_safe over one bucket chain: skip
entries of other identities, set_hot and return a full match, remove_entry a
stale identity match (inode id reuse) and keep scanning.  The safe iterator
reads the next pointer before the body runs, and the body only ever unlinks
the current node, so iterating the initial chain is exact. -/
def lookup_scan (tgt : Inode) : List Nat → Tracer → Option Nat × Tracer
  | [], s => (none, s)
  | j :: rest, s =>
    if id_matches (s.data.getD j default) tgt then
      if (s.data.getD j default).ctime = tgt.i_ctime then (some j, _set_hot s j)
      else lookup_scan tgt rest (_remove_entry s j)
    else lookup_scan tgt rest s

/-- lookup: scan the candidate bucket for i_ino. -/
def _lookup (s : Tracer) (i : Inode) : Option Nat × Tracer :=
  lookup_scan i (bkt s (hash_idx i.i_ino)) s

/-- An inode is cached when its hash bucket holds an entry matching its whole
(device, id, ctime) triple: exactly the condition under which lookup hits. -/
def cached (s : Tracer) (i : Inode) : Prop :=
  ∃ j ∈ bkt s (hash_idx i.i_ino), entry_matches (s.data.getD j default) i

instance (s : Tracer) (i : Inode) : Decidable (cached s i) := by
  unfold cached; infer_instance

/-- Well-formedness maintained by the tracer: the hash table has its declared
number of buckets, every arena index is on the LRU list exactly once, and the
bucket chains hold arena indices with no index doubly linked. -/
def wf (s : Tracer) : Prop :=
  s.buckets.length = CACHE_HASH_BUCKETS ∧
  s.lru.Nodup ∧
  s.lru.length = s.data.length ∧
  (∀ j ∈ s.lru, j < s.data.length) ∧
  (bucketsJoin s).Nodup ∧
  (∀ j ∈ bucketsJoin s, j < s.data.length)

instance (s : Tracer) : Decidable (wf s) := by
  unfold wf; infer_instance

/-- Identity key (device, inode id) of an inode. -/
def ident (i : Inode) : Nat × Nat := (i.i_ino, i.s_dev)

/-- Fold of map over a key sequence: each key inserted in turn with no
intervening lookups. -/
def insert_all (s : Tracer) (ks : List Inode) : Tracer := ks.foldl _map s

/-- fs_add_mark distilled over the backend's mark registry, modelled as the
list of inode ids carrying a mark of the monitor group (fsnotify_find_mark /
fsnotify_add_mark are backend state not under src, modelled per the spec's
watch interface): an existing mark means no-op; otherwise a mark is allocated
with mask ALL_FSNOTIFY_EVENTS and registered, and a registration failure
(inode already gone) just drops the attempt without recording a watch. -/
def _fs_add_mark (marks : List Nat) (regok : Bool) (ino : Nat) : List Nat :=
  if ino ∈ marks then marks
  else if regok then ino :: marks
  else marks

/-- Variant threading an oracle of registration outcomes: one Bool is consumed
exactly when fs_add_mark reaches the backend's add_mark call (oracle exhausted
reads as success). -/
def _fs_add_mark_reg (marks : List Nat) (reg : List Bool) (ino : Nat) :
    List Nat × List Bool :=
  if ino ∈ marks then (marks, reg)
  else (_fs_add_mark marks (reg.headD true) ino, reg.tail)

/-- File-lifecycle record kinds (iotrace_fs_event_type). -/
inductive fs_event_type where
  | move_from
  | move_to
  | create
  | delete
deriving DecidableEq, Repr

/-- Record written by trace_file_event (struct iotrace_event_fs_file_event):
partition id = i_sb->s_dev, file id = i_ino, the file's ctime, and the event
kind. -/
structure FileEvent where
  partition_id : Nat
  file_id : Nat
  ctime : timespec
  event_type : fs_event_type
deriving DecidableEq, Repr

/-- trace_file_event: reserve a sink write buffer (octf_trace_get_wr_buffer)
and on success fill the record and commit it; on a full sink return without
writing.  The sink is an oracle list of outcomes consumed head first, an
exhausted oracle reading as success. -/
def _trace_file_event (sink : List Bool) (i : Inode) (t : fs_event_type) :
    List Bool × List FileEvent :=
  (sink.tail,
   if sink.headD true then [⟨i.s_dev, i.i_ino, i.i_ctime, t⟩] else [])

/- fsnotify event mask bits, from linux/fsnotify_backend.h. -/
def FS_OPEN : Nat := 0x20
def FS_MOVED_FROM : Nat := 0x40
def FS_MOVED_TO : Nat := 0x80
def FS_CREATE : Nat := 0x100
def FS_DELETE_SELF : Nat := 0x400

/-- The event classes collected by the module. -/
def IOTRACE_FSNOTIFY_EVENTS : Nat :=
  FS_MOVED_FROM ||| FS_MOVED_TO ||| FS_CREATE ||| FS_DELETE_SELF

/-- Payload of a delivered fsnotify event: FSNOTIFY_EVENT_PATH and
FSNOTIFY_EVENT_INODE both carry the child's inode, FSNOTIFY_EVENT_NONE
carries no object.  (The handler's default case is a kernel BUG and is
outside the backend's interface.) -/
inductive EventData where
  | path (child : Inode)
  | inode (child : Inode)
  | none_
deriving DecidableEq, Repr

/-- fs_handle_event: extract the child inode from the payload (returning 0
with no effect when the payload kind is FSNOTIFY_EVENT_NONE), then, in source
order: emit Move-From and Move-To records per the mask, on FS_CREATE mark the
child and (the mask then intersecting IOTRACE_FSNOTIFY_EVENTS) emit a Create
record, emit a Delete record on FS_DELETE_SELF, and mark the child on
FS_OPEN.  Returns the handler's return value together with the updated mark
registry, the remaining registration and sink oracles, and the records
committed. -/
def _fs_handle_event (marks : List Nat) (reg sink : List Bool)
    (data : EventData) (mask : Nat) :
    Int × List Nat × List Bool × List Bool × List FileEvent :=
  match data with
  | .none_ => (0, marks, reg, sink, [])
  | .path child | .inode child =>
    let p1 :=
      if mask &&& FS_MOVED_FROM &&& IOTRACE_FSNOTIFY_EVENTS ≠ 0 then
        _trace_file_event sink child .move_from
      else (sink, [])
    let p2 :=
      if mask &&& FS_MOVED_TO &&& IOTRACE_FSNOTIFY_EVENTS ≠ 0 then
        _trace_file_event p1.1 child .move_to
      else (p1.1, [])
    let q1 :=
      if mask &&& FS_CREATE ≠ 0 then _fs_add_mark_reg marks reg child.i_ino
      else (marks, reg)
    let p3 :=
      if mask &&& FS_CREATE ≠ 0 ∧ mask &&& IOTRACE_FSNOTIFY_EVENTS ≠ 0 then
        _trace_file_event p2.1 child .create
      else (p2.1, [])
    let p4 :=
      if mask &&& FS_DELETE_SELF &&& IOTRACE_FSNOTIFY_EVENTS ≠ 0 then
        _trace_file_event p3.1 child .delete
      else (p3.1, [])
    let q2 :=
      if mask &&& FS_OPEN ≠ 0 then _fs_add_mark_reg q1.1 q1.2 child.i_ino
      else q1
    (0, q2.1, q2.2, p4.1, p1.2 ++ p2.2 ++ p3.2 ++ p4.2)

/-- Record written by trace_filename (struct iotrace_event_fs_file_name):
device, the traced object's id and ctime, and the parent inode's id and ctime
(0 and a zeroed timespec when there is no parent inode).  The truncated,
null-terminated leaf-name payload copied from the dentry is not modelled; its
layout lives in a header outside src and nothing here inspects it. -/
structure FileNameEvent where
  partition_id : Nat
  file_id : Nat
  file_ctime : timespec
  file_parent_id : Nat
  file_parent_ctime : timespec
deriving DecidableEq, Repr

def zero_timespec : timespec := ⟨0, 0⟩

/-- The FileNameEvent trace_filename commits for an inode and its optional
parent inode. -/
def mk_name_event (this : Inode) (parent : Option Inode) : FileNameEvent :=
  { partition_id := this.s_dev
    file_id := this.i_ino
    file_ctime := this.i_ctime
    file_parent_id := (parent.map Inode.i_ino).getD 0
    file_parent_ctime := (parent.map Inode.i_ctime).getD zero_timespec }

/-- Ambient state threaded through iotrace_trace_inode: the per-cpu tracer,
the monitor group's mark registry, the trace-sink outcome oracle and the
mark-registration outcome oracle. -/
structure WalkSt where
  tracer : Tracer
  marks : List Nat
  sink : List Bool
  reg : List Bool
deriving DecidableEq, Repr

/-- The do-while of iotrace_trace_inode over the dentry chain, listed traced
object first with each ancestor after it; the chain ends at the mount root,
whose resolution yields no further parent per the metadata-provider
interface (parent_or_none).  A cache hit breaks the loop; on a miss the
parent, when it is a directory and a monitor is attached, gets a mark,
trace_filename is attempted, the current inode is mapped only if its record
was committed, and the loop advances to the parent whether or not it was. -/
def iotrace_trace_inode_loop :
    WalkSt → List Inode → WalkSt × List FileNameEvent
  | w, [] => (w, [])
  | w, this :: rest =>
    match _lookup w.tracer this with
    | (some _, t') => ({ w with tracer := t' }, [])
    | (none, t') =>
      let w1 : WalkSt := { w with tracer := t' }
      let w2 : WalkSt :=
        match rest.head? with
        | some p =>
          if p.is_dir && w.tracer.fsm_present then
            let mr := _fs_add_mark_reg w1.marks w1.reg p.i_ino
            { w1 with marks := mr.1, reg := mr.2 }
          else w1
        | none => w1
      let ok := w2.sink.headD true
      let w3 : WalkSt := { w2 with sink := w2.sink.tail }
      if ok then
        let w4 : WalkSt := { w3 with tracer := _map w3.tracer this }
        let res := iotrace_trace_inode_loop w4 rest
        (res.1, mk_name_event this rest.head? :: res.2)
      else
        let res := iotrace_trace_inode_loop w3 rest
        (res.1, res.2)

/-- iotrace_trace_inode: resolve the traced inode's dentry chain and run the
walk.  An empty chain corresponds to d_find_alias failing, where the function
returns without tracing. -/
def iotrace_trace_inode (w : WalkSt) (chain : List Inode) :
    WalkSt × List FileNameEvent :=
  iotrace_trace_inode_loop w chain

/-! ### Concrete fixtures used as witness and counterexample inputs -/

def inoA : Inode := ⟨1, 7, ⟨10, 0⟩, false⟩
def inoB : Inode := ⟨2, 7, ⟨20, 0⟩, false⟩
def inoC : Inode := ⟨3, 7, ⟨30, 0⟩, true⟩
def inoD : Inode := ⟨4, 7, ⟨40, 0⟩, false⟩

/-- A stale pair: same identity (5, 7), different ctime stamps. -/
def inoOld : Inode := ⟨5, 7, ⟨1, 1⟩, false⟩
def inoNew : Inode := ⟨5, 7, ⟨2, 2⟩, false⟩

/-- A three-level dentry chain: object, parent directory, mount-root
directory. -/
def obj_O : Inode := ⟨100, 9, ⟨1, 1⟩, false⟩
def obj_P : Inode := ⟨101, 9, ⟨2, 2⟩, true⟩
def obj_G : Inode := ⟨102, 9, ⟨3, 3⟩, true⟩

/-- Cache with one entry: inoOld mapped into a fresh 4-entry tracer. -/
def state_C3 : Tracer := _map (iotrace_create_inode_tracer 4 false) inoOld

/-- Distinct keys for the full-cache eviction scenario. -/
def wKey (t : Nat) : Inode := ⟨t + 1, 0, ⟨0, 0⟩, false⟩

def wRest : List Inode := (List.range CACHE_SIZE).map (fun t => wKey (t + 1))

def wKeys : List Inode := (List.range (CACHE_SIZE + 1)).map wKey

/-! ### List helper lemmas -/

theorem getD_set_self {α : Type*} (l : List α) (i : Nat) (v d : α)
    (h : i < l.length) : (l.set i v).getD i d = v := by
  rw [List.getD_eq_getElem?_getD, List.getElem?_set_self h]
  rfl

theorem getD_set_ne {α : Type*} (l : List α) {i j : Nat} (v d : α)
    (h : i ≠ j) : (l.set i v).getD j d = l.getD j d := by
  rw [List.getD_eq_getElem?_getD, List.getElem?_set_ne h,
    ← List.getD_eq_getElem?_getD]

theorem bkt_bucket_del (bs : List (List Nat)) (j b : Nat) :
    (bucket_del bs j).getD b [] = (bs.getD b []).erase j := by
  induction bs generalizing b with
  | nil => simp [bucket_del]
  | cons hd tl ih =>
    cases b with
    | zero => simp [bucket_del]
    | succ b => simpa [bucket_del] using ih b

theorem flatten_bucket_del_sublist (bs : List (List Nat)) (j : Nat) :
    (bucket_del bs j).flatten.Sublist bs.flatten := by
  induction bs with
  | nil => simp [bucket_del]
  | cons hd tl ih =>
    simpa [bucket_del, List.flatten_cons] using
      (List.erase_sublist j hd).append ih

theorem nodup_of_flatten_nodup {bs : List (List Nat)}
    (h : bs.flatten.Nodup) : ∀ b ∈ bs, b.Nodup := by
  induction bs with
  | nil => simp
  | cons hd tl ih =>
    rw [List.flatten_cons, List.nodup_append] at h
    intro b hb
    rcases List.mem_cons.mp hb with rfl | hb
    · exact h.1
    · exact ih h.2.1 b hb

theorem not_mem_flatten_bucket_del {bs : List (List Nat)}
    (h : bs.flatten.Nodup) (j : Nat) : j ∉ (bucket_del bs j).flatten := by
  intro hmem
  rw [bucket_del, List.mem_flatten] at hmem
  obtain ⟨l, hl, hjl⟩ := hmem
  rw [List.mem_map] at hl
  obtain ⟨b, hb, rfl⟩ := hl
  exact ((nodup_of_flatten_nodup h b hb).mem_erase_iff.mp hjl).1 rfl

theorem flatten_set_cons_perm (bs : List (List Nat)) {bi : Nat} (v : Nat)
    (h : bi < bs.length) :
    (bs.set bi (v :: bs.getD bi [])).flatten.Perm (v :: bs.flatten) := by
  induction bs generalizing bi with
  | nil => simp at h
  | cons hd tl ih =>
    cases bi with
    | zero => simp
    | succ b =>
      rw [List.set_cons_succ, List.flatten_cons, List.getD_cons_succ,
        List.flatten_cons]
      exact ((ih (Nat.lt_of_succ_lt_succ h)).append_left hd).trans
        List.perm_middle

theorem bkt_subset_flatten (s : Tracer) (b : Nat) :
    ∀ j ∈ bkt s b, j ∈ bucketsJoin s := by
  intro j hj
  rw [bucketsJoin, List.mem_flatten]
  by_cases hb : b < s.buckets.length
  · refine ⟨s.buckets.getD b [], ?_, hj⟩
    rw [List.getD_eq_getElem?_getD, List.getElem?_eq_getElem hb]
    exact List.getElem_mem hb
  · rw [bkt, List.getD_eq_getElem?_getD, List.getElem?_eq_none
      (Nat.le_of_not_lt hb)] at hj
    simp at hj

/-! ### Elementary facts about the cache operations -/

theorem data_set_hot (s : Tracer) (j : Nat) : (_set_hot s j).data = s.data :=
  rfl

theorem bkt_set_hot (s : Tracer) (j b : Nat) : bkt (_set_hot s j) b = bkt s b :=
  rfl

theorem data_remove_entry (s : Tracer) (j : Nat) :
    (_remove_entry s j).data = s.data :=
  rfl

theorem bkt_remove_entry (s : Tracer) (j b : Nat) :
    bkt (_remove_entry s j) b = (bkt s b).erase j :=
  bkt_bucket_del _ _ _

theorem lookup_scan_data (tgt : Inode) (L : List Nat) (s : Tracer) :
    ((lookup_scan tgt L s).2).data = s.data := by
  induction L generalizing s with
  | nil => rfl
  | cons j rest ih =>
    rw [lookup_scan]
    split
    · split
      · rfl
      · exact (ih _).trans rfl
    · exact ih s

theorem lookup_data (s : Tracer) (i : Inode) :
    ((_lookup s i).2).data = s.data :=
  lookup_scan_data _ _ _

theorem hash_idx_lt (ino : Nat) : hash_idx ino < CACHE_HASH_BUCKETS := by
  rw [hash_idx, CACHE_HASH_BUCKETS, CACHE_HASH_BITS, Nat.shiftRight_eq_div_pow,
    Nat.shiftLeft_eq]
  have h : ino * hash64_multiplier % 2 ^ 64 < 2 ^ 64 :=
    Nat.mod_lt _ (by norm_num)
  rw [Nat.div_lt_iff_lt_mul (by positivity : 0 < (2 : Nat) ^ (64 - 10))]
  calc ino * hash64_multiplier % 2 ^ 64 < 2 ^ 64 := h
    _ = 1 * 2 ^ 10 * 2 ^ (64 - 10) := by norm_num

theorem getLastD_mem {l : List Nat} (h : l ≠ []) (d : Nat) :
    l.getLastD d ∈ l := by
  rw [List.getLastD_eq_getLast?, List.getLast?_eq_getLast l h]
  exact List.getLast_mem h

theorem foldl_cons_eq_reverse {α : Type*} (l : List α) (acc : List α) :
    l.foldl (fun r x => x :: r) acc = l.reverse ++ acc := by
  induction l generalizing acc with
  | nil => simp
  | cons a l ih => simp [ih]

theorem create_lru (n : Nat) (f : Bool) :
    (iotrace_create_inode_tracer n f).lru = (List.range n).reverse := by
  simp [iotrace_create_inode_tracer, foldl_cons_eq_reverse]

theorem flatten_replicate_nil (k : Nat) :
    (List.replicate k ([] : List Nat)).flatten = [] := by
  induction k with
  | zero => rfl
  | succ k ih => simpa [List.replicate_succ] using ih

theorem bkt_create (n : Nat) (f : Bool) (b : Nat) :
    bkt (iotrace_create_inode_tracer n f) b = [] := by
  rw [bkt, iotrace_create_inode_tracer]
  rcases Nat.lt_or_ge b CACHE_HASH_BUCKETS with hb | hb
  · rw [List.getD_eq_getElem?_getD, List.getElem?_replicate_of_lt hb]
    rfl
  · rw [List.getD_eq_getElem?_getD,
      List.getElem?_eq_none (by simpa using hb)]
    rfl

theorem wf_create (n : Nat) (f : Bool) :
    wf (iotrace_create_inode_tracer n f) := by
  refine ⟨by simp [iotrace_create_inode_tracer], ?_, ?_, ?_, ?_, ?_⟩
  · rw [create_lru]
    exact List.nodup_reverse.mpr (List.nodup_range n)
  · simp [create_lru, iotrace_create_inode_tracer]
  · intro j hj
    rw [create_lru, List.mem_reverse, List.mem_range] at hj
    simpa [iotrace_create_inode_tracer] using hj
  · show (List.replicate CACHE_HASH_BUCKETS ([] : List Nat)).flatten.Nodup
    rw [flatten_replicate_nil]
    exact List.nodup_nil
  · intro j hj
    have : (List.replicate CACHE_HASH_BUCKETS ([] : List Nat)).flatten = [] :=
      flatten_replicate_nil _
    rw [bucketsJoin] at hj
    simp only [iotrace_create_inode_tracer] at hj
    rw [this] at hj
    simp at hj

/-! ### Well-formedness preservation -/

theorem lru_perm_range {s : Tracer} (h : wf s) :
    s.lru.Perm (List.range s.data.length) := by
  obtain ⟨-, hnd, hlen, hbnd, -, -⟩ := h
  have hsub : s.lru ⊆ List.range s.data.length := fun j hj =>
    List.mem_range.mpr (hbnd j hj)
  exact (hnd.subperm hsub).perm_of_length_le (by simp [hlen])

theorem mem_lru_iff {s : Tracer} (h : wf s) {j : Nat} :
    j ∈ s.lru ↔ j < s.data.length := by
  rw [(lru_perm_range h).mem_iff, List.mem_range]

theorem lru_ne_nil {s : Tracer} (h : wf s) (hn : 0 < s.data.length) :
    s.lru ≠ [] := by
  intro he
  have := h.2.2.1
  rw [he] at this
  simp at this
  omega

theorem victim_mem {s : Tracer} (h : wf s) (hn : 0 < s.data.length) :
    s.lru.getLastD 0 ∈ s.lru :=
  getLastD_mem (lru_ne_nil h hn) 0

theorem victim_lt {s : Tracer} (h : wf s) (hn : 0 < s.data.length) :
    s.lru.getLastD 0 < s.data.length :=
  (mem_lru_iff h).mp (victim_mem h hn)

theorem wf_set_hot {s : Tracer} (h : wf s) {j : Nat}
    (hj : j < s.data.length) : wf (_set_hot s j) := by
  have hjl : j ∈ s.lru := (mem_lru_iff h).mpr hj
  obtain ⟨hb, hnd, hlen, hbnd, hfn, hfb⟩ := h
  have hperm : s.lru.Perm (j :: s.lru.erase j) := List.perm_cons_erase hjl
  refine ⟨hb, hperm.nodup_iff.mp hnd, ?_, ?_, hfn, hfb⟩
  · show (j :: s.lru.erase j).length = s.data.length
    rw [← hperm.length_eq]
    exact hlen
  · intro k hk
    exact hbnd k (hperm.mem_iff.mpr hk)

theorem wf_remove_entry {s : Tracer} (h : wf s) {j : Nat}
    (hj : j < s.data.length) : wf (_remove_entry s j) := by
  have hjl : j ∈ s.lru := (mem_lru_iff h).mpr hj
  obtain ⟨hb, hnd, hlen, hbnd, hfn, hfb⟩ := h
  have h2 : (s.lru.erase j ++ [j]).Perm (j :: s.lru.erase j) := by
    simpa using @List.perm_middle Nat j (s.lru.erase j) []
  have hperm : s.lru.Perm (s.lru.erase j ++ [j]) :=
    (List.perm_cons_erase hjl).trans h2.symm
  refine ⟨?_, hperm.nodup_iff.mp hnd, ?_, ?_, ?_, ?_⟩
  · show (bucket_del s.buckets j).length = CACHE_HASH_BUCKETS
    simpa [bucket_del] using hb
  · show (s.lru.erase j ++ [j]).length = s.data.length
    rw [← hperm.length_eq]
    exact hlen
  · intro k hk
    exact hbnd k (hperm.mem_iff.mpr hk)
  · exact (flatten_bucket_del_sublist s.buckets j).nodup hfn
  · intro k hk
    exact hfb k ((flatten_bucket_del_sublist s.buckets j).mem hk)

theorem wf_lookup_scan (tgt : Inode) (L : List Nat) {s : Tracer} (h : wf s)
    (hL : ∀ j ∈ L, j < s.data.length) : wf ((lookup_scan tgt L s).2) := by
  induction L generalizing s with
  | nil => exact h
  | cons j rest ih =>
    rw [lookup_scan]
    split
    · split
      · exact wf_set_hot h (hL j (by simp))
      · exact ih (wf_remove_entry h (hL j (by simp)))
          (fun k hk => hL k (by simp [hk]))
    · exact ih h (fun k hk => hL k (by simp [hk]))

theorem wf_lookup {s : Tracer} (h : wf s) (i : Inode) :
    wf ((_lookup s i).2) :=
  wf_lookup_scan i _ h
    (fun j hj => h.2.2.2.2.2 j (bkt_subset_flatten s _ j hj))

theorem lru_map (s : Tracer) (i : Inode) :
    (_map s i).lru = s.lru.getLastD 0 :: s.lru.dropLast :=
  rfl

theorem data_map (s : Tracer) (i : Inode) :
    (_map s i).data = s.data.set (s.lru.getLastD 0) (entry_of i) :=
  rfl

theorem buckets_map (s : Tracer) (i : Inode) :
    (_map s i).buckets =
      (bucket_del s.buckets (s.lru.getLastD 0)).set (hash_idx i.i_ino)
        (s.lru.getLastD 0 ::
          (bucket_del s.buckets (s.lru.getLastD 0)).getD (hash_idx i.i_ino) []) :=
  rfl

theorem lru_dropLast_concat_victim {s : Tracer} (h : wf s)
    (hn : 0 < s.data.length) :
    s.lru.dropLast ++ [s.lru.getLastD 0] = s.lru := by
  have hne := lru_ne_nil h hn
  rw [List.getLastD_eq_getLast?, List.getLast?_eq_getLast s.lru hne]
  exact List.dropLast_append_getLast hne

theorem lru_map_perm {s : Tracer} (h : wf s) (hn : 0 < s.data.length)
    (i : Inode) : (_map s i).lru.Perm s.lru := by
  rw [lru_map]
  have h1 : (s.lru.getLastD 0 :: s.lru.dropLast).Perm
      (s.lru.dropLast ++ [s.lru.getLastD 0]) := by
    simpa using
      (@List.perm_middle Nat (s.lru.getLastD 0) s.lru.dropLast []).symm
  rw [lru_dropLast_concat_victim h hn] at h1
  exact h1

theorem flatten_map_perm {s : Tracer} (h : wf s) (hn : 0 < s.data.length)
    (i : Inode) :
    (bucketsJoin (_map s i)).Perm
      (s.lru.getLastD 0 :: (bucket_del s.buckets (s.lru.getLastD 0)).flatten) := by
  rw [bucketsJoin, buckets_map]
  exact flatten_set_cons_perm _ _
    (by simpa [bucket_del, h.1] using hash_idx_lt i.i_ino)

theorem wf_map {s : Tracer} (h : wf s) (hn : 0 < s.data.length) (i : Inode) :
    wf (_map s i) := by
  have hperm := lru_map_perm h hn i
  have hvl := victim_lt h hn
  have hfl := flatten_map_perm h hn i
  obtain ⟨hb, hnd, hlen, hbnd, hfn, hfb⟩ := h
  have hwf : wf s := ⟨hb, hnd, hlen, hbnd, hfn, hfb⟩
  refine ⟨?_, ?_, ?_, ?_, ?_, ?_⟩
  · rw [buckets_map]
    simpa [bucket_del] using hb
  · exact hperm.nodup_iff.mpr hnd
  · rw [hperm.length_eq, data_map, List.length_set]
    exact hlen
  · intro k hk
    rw [data_map, List.length_set]
    exact hbnd k (hperm.mem_iff.mp hk)
  · rw [hfl.nodup_iff]
    exact List.nodup_cons.mpr
      ⟨not_mem_flatten_bucket_del hfn _,
       (flatten_bucket_del_sublist s.buckets _).nodup hfn⟩
  · intro k hk
    rw [data_map, List.length_set]
    rcases List.mem_cons.mp (hfl.mem_iff.mp hk) with rfl | hk
    · exact hvl
    · exact hfb k ((flatten_bucket_del_sublist s.buckets _).mem hk)

/-! ### Lookup semantics: the hit condition and preservation lemmas -/

theorem bkt_nodup {s : Tracer} (h : wf s) (b : Nat) : (bkt s b).Nodup := by
  by_cases hb : b < s.buckets.length
  · refine nodup_of_flatten_nodup h.2.2.2.2.1 _ ?_
    rw [bkt, List.getD_eq_getElem?_getD, List.getElem?_eq_getElem hb]
    exact List.getElem_mem hb
  · rw [bkt, List.getD_eq_getElem?_getD,
      List.getElem?_eq_none (Nat.le_of_not_lt hb)]
    exact List.nodup_nil

theorem lookup_scan_isSome_iff (tgt : Inode) (L : List Nat) (s : Tracer) :
    (lookup_scan tgt L s).1.isSome ↔
      ∃ j ∈ L, entry_matches (s.data.getD j default) tgt := by
  induction L generalizing s with
  | nil => simp [lookup_scan]
  | cons j rest ih =>
    rw [lookup_scan]
    by_cases h1 : id_matches (s.data.getD j default) tgt
    · by_cases h2 : (s.data.getD j default).ctime = tgt.i_ctime
      · rw [if_pos h1, if_pos h2]
        exact iff_of_true (by simp) ⟨j, by simp, h1, h2⟩
      · rw [if_pos h1, if_neg h2]
        rw [ih (_remove_entry s j)]
        constructor
        · rintro ⟨k, hk, hm⟩
          exact ⟨k, by simp [hk], hm⟩
        · rintro ⟨k, hk, hm⟩
          rcases List.mem_cons.mp hk with rfl | hk
          · exact absurd hm.2 h2
          · exact ⟨k, hk, hm⟩
    · rw [if_neg h1, ih s]
      constructor
      · rintro ⟨k, hk, hm⟩
        exact ⟨k, by simp [hk], hm⟩
      · rintro ⟨k, hk, hm⟩
        rcases List.mem_cons.mp hk with rfl | hk
        · exact absurd hm.1 h1
        · exact ⟨k, hk, hm⟩

theorem lookup_isSome_iff (s : Tracer) (i : Inode) :
    (_lookup s i).1.isSome ↔ cached s i :=
  lookup_scan_isSome_iff i _ s

theorem lookup_none_iff (s : Tracer) (i : Inode) :
    (_lookup s i).1 = none ↔ ¬ cached s i := by
  rw [← lookup_isSome_iff]
  cases (_lookup s i).1 <;> simp

theorem lookup_scan_bkt_sublist (tgt : Inode) (L : List Nat) (s : Tracer)
    (b : Nat) :
    (bkt ((lookup_scan tgt L s).2) b).Sublist (bkt s b) := by
  induction L generalizing s with
  | nil => exact List.Sublist.refl _
  | cons j rest ih =>
    rw [lookup_scan]
    split
    · split
      · exact List.Sublist.refl _
      · refine (ih _).trans ?_
        rw [bkt_remove_entry]
        exact List.erase_sublist j _
    · exact ih s

theorem not_cached_lookup {s : Tracer} {x : Inode} (h : ¬ cached s x)
    (i : Inode) : ¬ cached ((_lookup s i).2) x := by
  rintro ⟨j, hj, hm⟩
  rw [lookup_data] at hm
  exact h ⟨j, (lookup_scan_bkt_sublist i _ s _).subset hj, hm⟩

theorem bkt_map {s : Tracer} (i : Inode) (b : Nat)
    (hb : s.buckets.length = CACHE_HASH_BUCKETS) :
    bkt (_map s i) b =
      if b = hash_idx i.i_ino then
        s.lru.getLastD 0 :: (bkt s b).erase (s.lru.getLastD 0)
      else (bkt s b).erase (s.lru.getLastD 0) := by
  have hlen : hash_idx i.i_ino < (bucket_del s.buckets (s.lru.getLastD 0)).length := by
    rw [bucket_del, List.length_map, hb]
    exact hash_idx_lt i.i_ino
  by_cases hcase : b = hash_idx i.i_ino
  · subst hcase
    rw [if_pos rfl, bkt, buckets_map, getD_set_self _ _ _ _ hlen,
      bkt_bucket_del]
    rfl
  · rw [if_neg hcase, bkt, buckets_map,
      getD_set_ne _ _ _ (fun he => hcase he.symm), bkt_bucket_del]
    rfl

theorem cached_map_self {s : Tracer} (h : wf s) (hn : 0 < s.data.length)
    (i : Inode) : cached (_map s i) i := by
  refine ⟨s.lru.getLastD 0, ?_, ?_⟩
  · rw [bkt_map i _ h.1, if_pos rfl]
    exact List.mem_cons_self _ _
  · rw [data_map, getD_set_self _ _ _ _ (victim_lt h hn)]
    exact ⟨⟨rfl, rfl⟩, rfl⟩

theorem not_cached_map {s : Tracer} (h : wf s) (hn : 0 < s.data.length)
    {x : Inode} (hx : ¬ cached s x) {i : Inode}
    (hne : ¬ entry_matches (entry_of i) x) : ¬ cached (_map s i) x := by
  rintro ⟨j, hj, hm⟩
  rw [bkt_map i _ h.1] at hj
  have hnd := bkt_nodup h (hash_idx x.i_ino)
  have herase : j ∈ (bkt s (hash_idx x.i_ino)).erase (s.lru.getLastD 0) →
      False := by
    intro hje
    obtain ⟨hjv, hjb⟩ := hnd.mem_erase_iff.mp hje
    rw [data_map, getD_set_ne _ _ _ (fun he => hjv he.symm)] at hm
    exact hx ⟨j, hjb, hm⟩
  by_cases hcase : hash_idx x.i_ino = hash_idx i.i_ino
  · rw [if_pos hcase] at hj
    rcases List.mem_cons.mp hj with rfl | hj
    · rw [data_map, getD_set_self _ _ _ _ (victim_lt h hn)] at hm
      exact hne hm
    · exact herase hj
  · rw [if_neg hcase] at hj
    exact herase hj

theorem lookup_scan_mem_preserved (tgt : Inode) (L : List Nat) {s : Tracer}
    {k b : Nat} (hid : ¬ id_matches (s.data.getD k default) tgt)
    (hk : k ∈ bkt s b) : k ∈ bkt ((lookup_scan tgt L s).2) b := by
  induction L generalizing s with
  | nil => exact hk
  | cons j rest ih =>
    rw [lookup_scan]
    by_cases h1 : id_matches (s.data.getD j default) tgt
    · by_cases h2 : (s.data.getD j default).ctime = tgt.i_ctime
      · rw [if_pos h1, if_pos h2]
        exact hk
      · rw [if_pos h1, if_neg h2]
        have hjk : k ≠ j := fun he => hid (he ▸ h1)
        refine ih hid ?_
        rw [bkt_remove_entry]
        exact (List.mem_erase_of_ne hjk).mpr hk
    · rw [if_neg h1]
      exact ih hid hk

theorem lookup_mem_preserved {s : Tracer} {k b : Nat} (tgt : Inode)
    (hid : ¬ id_matches (s.data.getD k default) tgt) (hk : k ∈ bkt s b) :
    k ∈ bkt ((_lookup s tgt).2) b :=
  lookup_scan_mem_preserved tgt _ hid hk

theorem erase_append_singleton_perm {l : List Nat} {j : Nat} (hj : j ∈ l) :
    (l.erase j ++ [j]).Perm l := by
  have h1 : (l.erase j ++ [j]).Perm (j :: l.erase j) := by
    simpa using @List.perm_middle Nat j (l.erase j) []
  exact h1.trans (List.perm_cons_erase hj).symm

theorem lookup_scan_lru_prefix (tgt : Inode) (L : List Nat) {s : Tracer}
    (pre l : List Nat) (hlru : s.lru = pre ++ l) (hnd : s.lru.Nodup)
    (hL : ∀ j ∈ L, id_matches (s.data.getD j default) tgt → j ∈ l)
    (hmiss : ∀ j ∈ L, ¬ entry_matches (s.data.getD j default) tgt) :
    ∃ l', ((lookup_scan tgt L s).2).lru = pre ++ l' ∧ l'.Perm l := by
  induction L generalizing s l with
  | nil => exact ⟨l, hlru, List.Perm.refl l⟩
  | cons j rest ih =>
    rw [lookup_scan]
    by_cases h1 : id_matches (s.data.getD j default) tgt
    · have h2 : ¬ (s.data.getD j default).ctime = tgt.i_ctime := fun hc =>
        hmiss j (by simp) ⟨h1, hc⟩
      rw [if_pos h1, if_neg h2]
      have hjl : j ∈ l := hL j (by simp) h1
      have hjpre : j ∉ pre := by
        intro hp
        rw [hlru, List.nodup_append] at hnd
        exact hnd.2.2 hp hjl
      have hlru' : (_remove_entry s j).lru = pre ++ (l.erase j ++ [j]) := by
        show s.lru.erase j ++ [j] = _
        rw [hlru, List.erase_append_right _ hjpre, List.append_assoc]
      have hperm2 : (l.erase j ++ [j]).Perm l := erase_append_singleton_perm hjl
      have hnd0 : (pre ++ l).Nodup := hlru ▸ hnd
      have hnd' : (_remove_entry s j).lru.Nodup := by
        rw [hlru']
        exact (List.Perm.append_left pre hperm2).nodup_iff.mpr hnd0
      obtain ⟨l', hl1, hl2⟩ := ih (l.erase j ++ [j]) hlru' hnd'
        (fun k hk hm => by
          have hkl : k ∈ l := hL k (by simp [hk]) hm
          by_cases hkj : k = j
          · subst hkj
            exact List.mem_append.mpr (Or.inr (by simp))
          · exact List.mem_append.mpr
              (Or.inl ((List.mem_erase_of_ne hkj).mpr hkl)))
        (fun k hk => hmiss k (by simp [hk]))
      exact ⟨l', hl1, hl2.trans hperm2⟩
    · rw [if_neg h1]
      exact ih l hlru hnd (fun k hk hm => hL k (by simp [hk]) hm)
        (fun k hk => hmiss k (by simp [hk]))

theorem lookup_scan_skip_all (tgt : Inode) (L : List Nat) (s : Tracer)
    (h : ∀ k ∈ L, ¬ id_matches (s.data.getD k default) tgt) :
    lookup_scan tgt L s = (none, s) := by
  induction L with
  | nil => rfl
  | cons a rest ih =>
    rw [lookup_scan, if_neg (h a (by simp))]
    exact ih (fun k hk => h k (by simp [hk]))

theorem lookup_scan_hit (tgt : Inode) (L : List Nat) (s : Tracer) (j : Nat)
    (hnd : L.Nodup) (hjL : j ∈ L)
    (hm : entry_matches (s.data.getD j default) tgt)
    (hothers : ∀ k ∈ L, k ≠ j → ¬ id_matches (s.data.getD k default) tgt) :
    lookup_scan tgt L s = (some j, _set_hot s j) := by
  induction L with
  | nil => simp at hjL
  | cons a rest ih =>
    rcases List.mem_cons.mp hjL with rfl | hjr
    · rw [lookup_scan, if_pos hm.1, if_pos hm.2]
    · have haj : a ≠ j := by
        intro he
        subst he
        exact (List.nodup_cons.mp hnd).1 hjr
      rw [lookup_scan, if_neg (hothers a (by simp) haj)]
      exact ih (List.nodup_cons.mp hnd).2 hjr
        (fun k hk hkj => hothers k (by simp [hk]) hkj)

theorem lookup_scan_stale (tgt : Inode) (L : List Nat) (s : Tracer) (j : Nat)
    (hnd : L.Nodup) (hjL : j ∈ L)
    (hid : id_matches (s.data.getD j default) tgt)
    (hct : ¬ (s.data.getD j default).ctime = tgt.i_ctime)
    (hothers : ∀ k ∈ L, k ≠ j → ¬ id_matches (s.data.getD k default) tgt) :
    lookup_scan tgt L s = (none, _remove_entry s j) := by
  induction L with
  | nil => simp at hjL
  | cons a rest ih =>
    rcases List.mem_cons.mp hjL with rfl | hjr
    · rw [lookup_scan, if_pos hid, if_neg hct]
      exact lookup_scan_skip_all tgt rest _
        (fun k hk => hothers k (by simp [hk])
          (fun he => (List.nodup_cons.mp hnd).1 (he ▸ hk)))
    · have haj : a ≠ j := by
        intro he
        subst he
        exact (List.nodup_cons.mp hnd).1 hjr
      rw [lookup_scan, if_neg (hothers a (by simp) haj)]
      exact ih (List.nodup_cons.mp hnd).2 hjr
        (fun k hk hkj => hothers k (by simp [hk]) hkj)

/-! ### Filling an empty cache with distinct keys -/

theorem getD_map_entry (l : List Inode) {j : Nat} (hj : j < l.length) :
    (l.map entry_of).getD j default = entry_of (l.getD j default) := by
  rw [List.getD_eq_getElem _ _ (by simpa using hj), List.getElem_map,
    List.getD_eq_getElem _ _ hj]

theorem entry_matches_ident {a b : Inode}
    (h : entry_matches (entry_of a) b) : ident a = ident b := by
  obtain ⟨⟨h1, h2⟩, -⟩ := h
  simp only [entry_of] at h1 h2
  simp [ident, h1, h2]

theorem data_length_map (s : Tracer) (i : Inode) :
    (_map s i).data.length = s.data.length := by
  rw [data_map, List.length_set]

theorem data_length_insert_all (s : Tracer) (ks : List Inode) :
    (insert_all s ks).data.length = s.data.length := by
  induction ks generalizing s with
  | nil => rfl
  | cons k ks ih =>
    rw [insert_all, List.foldl_cons]
    exact (ih _).trans (data_length_map s k)

theorem wf_insert_all {s : Tracer} (h : wf s) (hn : 0 < s.data.length)
    (ks : List Inode) : wf (insert_all s ks) := by
  induction ks generalizing s with
  | nil => exact h
  | cons k ks ih =>
    rw [insert_all, List.foldl_cons]
    exact ih (wf_map h hn k) (by rw [data_length_map]; exact hn)

theorem insert_all_take_inv (n : Nat) (f : Bool) (ks : List Inode)
    (m : Nat) (hm : m ≤ n) (hmk : m ≤ ks.length) :
    (insert_all (iotrace_create_inode_tracer n f) (ks.take m)).lru =
        (List.range m).reverse ++ (List.range' m (n - m)).reverse ∧
    (insert_all (iotrace_create_inode_tracer n f) (ks.take m)).data =
        (ks.take m).map entry_of ++ List.replicate (n - m) zero_entry ∧
    (insert_all (iotrace_create_inode_tracer n f) (ks.take m)).buckets.length =
        CACHE_HASH_BUCKETS ∧
    ∀ i, i < m →
      i ∈ bkt (insert_all (iotrace_create_inode_tracer n f) (ks.take m))
        (hash_idx (ks.getD i default).i_ino) := by
  induction m with
  | zero =>
    refine ⟨?_, ?_, ?_, ?_⟩
    · rw [List.take_zero]
      show (iotrace_create_inode_tracer n f).lru = _
      rw [create_lru, List.range_eq_range']
      simp
    · simp [insert_all, iotrace_create_inode_tracer]
    · simp [insert_all, iotrace_create_inode_tracer]
    · intro i hi
      exact absurd hi (Nat.not_lt_zero i)
  | succ m ih =>
    have hmn : m < n := Nat.lt_of_lt_of_le (Nat.lt_succ_self m) hm
    have hmlt : m < ks.length := Nat.lt_of_lt_of_le (Nat.lt_succ_self m) hmk
    obtain ⟨hlru, hdata, hblen, hmem⟩ :=
      ih (Nat.le_of_lt hmn) (Nat.le_of_lt hmlt)
    have hstep :
        insert_all (iotrace_create_inode_tracer n f) (ks.take (m + 1)) =
          _map (insert_all (iotrace_create_inode_tracer n f) (ks.take m))
            (ks.getD m default) := by
      rw [List.take_succ, List.getElem?_eq_getElem hmlt]
      rw [insert_all, List.foldl_append]
      rw [List.getD_eq_getElem _ _ hmlt]
      rfl
    have hsplit : List.range' m (n - m) =
        m :: List.range' (m + 1) (n - m - 1) := by
      have he : n - m = (n - m - 1) + 1 := by omega
      rw [he, List.range'_succ]
      simp
    have hvic :
        (insert_all (iotrace_create_inode_tracer n f) (ks.take m)).lru.getLastD
          0 = m := by
      rw [hlru, hsplit, List.reverse_cons, ← List.append_assoc,
        List.getLastD_concat]
    refine ⟨?_, ?_, ?_, ?_⟩
    · rw [hstep, lru_map, hvic, hlru, hsplit, List.reverse_cons,
        ← List.append_assoc, List.dropLast_concat, List.range_succ,
        List.reverse_append]
      have hn1 : n - (m + 1) = n - m - 1 := by omega
      rw [hn1]
      rfl
    · rw [hstep, data_map, hvic, hdata]
      have hlen : ((ks.take m).map entry_of).length = m := by
        simp [List.length_take]
        omega
      rw [List.set_append, if_neg (by omega), hlen, Nat.sub_self]
      have he : n - m = (n - m - 1) + 1 := by omega
      rw [he, List.replicate_succ, List.set_cons_zero]
      rw [List.take_succ, List.getElem?_eq_getElem hmlt, List.map_append]
      have hn1 : n - (m + 1) = n - m - 1 := by omega
      rw [hn1, List.append_assoc]
      simp [List.getD_eq_getElem?_getD, List.getElem?_eq_getElem hmlt]
    · rw [hstep, buckets_map]
      simpa [bucket_del] using hblen
    · intro i hi
      rcases Nat.lt_or_ge i m with him | him
      · have hmemi := hmem i him
        rw [hstep, bkt_map _ _ hblen, hvic]
        split
        · exact List.mem_cons_of_mem _
            ((List.mem_erase_of_ne (by omega)).mpr hmemi)
        · exact (List.mem_erase_of_ne (by omega)).mpr hmemi
      · have hieq : i = m := by omega
        subst hieq
        rw [hstep, bkt_map _ _ hblen, hvic, if_pos rfl]
        exact List.mem_cons_self _ _

/-! ### Claim C6 -/

/-- Claim C6 counterexample: the hash table is NOT sized so that the number
of cache entries equals 4 times the number of hash buckets.  The arena of the
code's tracer has CACHE_SIZE = 8192 entries while DECLARE_HASHTABLE allocates
2 ^ CACHE_HASH_BITS = 1024 buckets, and 8192 is not 4 * 1024. -/
theorem claim_C6_cex :
    ¬ ((iotrace_create_inode_tracer CACHE_SIZE false).data.length =
        4 * (iotrace_create_inode_tracer CACHE_SIZE false).buckets.length) := by
  simp only [iotrace_create_inode_tracer, List.length_replicate]
  decide

/-- Claim C6 (amended): the number of cache entries equals 8 times the number
of hash buckets the table actually has.  CACHE_SIZE is defined as
4 * CACHE_HASH_SIZE, but CACHE_HASH_SIZE = 2 << CACHE_HASH_BITS is twice the
bucket count 1 << CACHE_HASH_BITS that DECLARE_HASHTABLE allocates. -/
theorem claim_C6 :
    (∀ f : Bool,
      (iotrace_create_inode_tracer CACHE_SIZE f).data.length =
        8 * (iotrace_create_inode_tracer CACHE_SIZE f).buckets.length) ∧
    CACHE_SIZE = 4 * CACHE_HASH_SIZE ∧
    CACHE_SIZE = 8 * CACHE_HASH_BUCKETS := by
  refine ⟨?_, by decide, by decide⟩
  intro f
  simp [iotrace_create_inode_tracer]
  decide

/-! ### Claim C7 -/

/-- Claim C7: watch(object) is idempotent — an existing Watch for the object
makes the call a no-op; otherwise the Watch is recorded when backend
registration succeeds, while a registration failure just drops the attempt
and records nothing; re-running a successful watch is a no-op. -/
theorem claim_C7 :
    ∀ (marks : List Nat) (ino : Nat) (r r' : Bool),
      (ino ∈ marks → _fs_add_mark marks r ino = marks) ∧
      (ino ∉ marks → _fs_add_mark marks true ino = ino :: marks) ∧
      (ino ∉ marks → _fs_add_mark marks false ino = marks) ∧
      _fs_add_mark (_fs_add_mark marks true ino) r' ino =
        _fs_add_mark marks true ino := by
  intro marks ino r r'
  refine ⟨?_, ?_, ?_, ?_⟩
  · intro h
    simp [_fs_add_mark, h]
  · intro h
    simp [_fs_add_mark, h]
  · intro h
    simp [_fs_add_mark, h]
  · by_cases h : ino ∈ marks <;> simp [_fs_add_mark, h]

/-- Claim C7 witness at a concrete registry. -/
theorem claim_C7_witness :
    (5 ∉ ([] : List Nat)) ∧
    _fs_add_mark [] true 5 = [5] ∧
    _fs_add_mark [] false 5 = [] ∧
    _fs_add_mark [5] true 5 = [5] :=
  ⟨by decide, (claim_C7 [] 5 true false).2.1 (by decide),
   (claim_C7 [] 5 true false).2.2.1 (by decide),
   (claim_C7 [5] 5 true false).1 (by decide)⟩

/-! ### Claim C10 -/

/-- Claim C10: an event whose payload kind is FSNOTIFY_EVENT_NONE makes the
handler return 0 with no effect: no record is emitted, no watch is
installed, and the oracles are untouched, whatever the mask. -/
theorem claim_C10 :
    ∀ (marks : List Nat) (reg sink : List Bool) (mask : Nat),
      _fs_handle_event marks reg sink EventData.none_ mask =
        (0, marks, reg, sink, []) :=
  fun _ _ _ _ => rfl

/-! ### Claim C8 -/

/-- Claim C8: delivered events produce exactly the records and watch side
effects their class dictates — moved-from and moved-to emit the matching Move
record, create installs a watch on the child and emits a Create record,
delete-self emits a Delete record, and open only installs a watch and emits
nothing; a path payload behaves exactly as an inode payload. -/
theorem claim_C8 :
    ∀ (marks : List Nat) (child : Inode),
      _fs_handle_event marks [] [] (EventData.inode child) FS_MOVED_FROM =
        (0, marks, [], [],
          [⟨child.s_dev, child.i_ino, child.i_ctime, .move_from⟩]) ∧
      _fs_handle_event marks [] [] (EventData.inode child) FS_MOVED_TO =
        (0, marks, [], [],
          [⟨child.s_dev, child.i_ino, child.i_ctime, .move_to⟩]) ∧
      _fs_handle_event marks [] [] (EventData.inode child) FS_CREATE =
        (0, _fs_add_mark marks true child.i_ino, [], [],
          [⟨child.s_dev, child.i_ino, child.i_ctime, .create⟩]) ∧
      _fs_handle_event marks [] [] (EventData.inode child) FS_DELETE_SELF =
        (0, marks, [], [],
          [⟨child.s_dev, child.i_ino, child.i_ctime, .delete⟩]) ∧
      _fs_handle_event marks [] [] (EventData.inode child) FS_OPEN =
        (0, _fs_add_mark marks true child.i_ino, [], [], []) ∧
      (∀ (reg sink : List Bool) (mask : Nat),
        _fs_handle_event marks reg sink (EventData.path child) mask =
          _fs_handle_event marks reg sink (EventData.inode child) mask) := by
  intro marks child
  refine ⟨?_, ?_, ?_, ?_, ?_, fun reg sink mask => rfl⟩ <;>
    by_cases h : child.i_ino ∈ marks <;>
      simp +decide [_fs_handle_event, _trace_file_event, _fs_add_mark_reg,
        _fs_add_mark, FS_MOVED_FROM, FS_MOVED_TO, FS_CREATE, FS_DELETE_SELF,
        FS_OPEN, IOTRACE_FSNOTIFY_EVENTS, h]

/-! ### Claim C3 -/

/-- Claim C3: a lookup whose identity (device, id) matches a cached entry with
a different ctime returns Miss after unlinking the stale entry from its hash
bucket and moving it to the LRU tail, and a subsequent insert of the same key
with the new ctime reuses exactly that freed entry as its victim, leaving
every other live mapping in place with its data intact. -/
theorem claim_C3 {s : Tracer} (h : wf s) (i i' : Inode) (j : Nat)
    (hj : j ∈ bkt s (hash_idx i.i_ino))
    (hid : id_matches (s.data.getD j default) i)
    (hct : ¬ (s.data.getD j default).ctime = i.i_ctime)
    (honly : ∀ k ∈ bkt s (hash_idx i.i_ino), k ≠ j →
      ¬ id_matches (s.data.getD k default) i)
    (hini : i'.i_ino = i.i_ino) (hdev : i'.s_dev = i.s_dev) :
    (_lookup s i).1 = none ∧
    ((_lookup s i).2).lru.getLast? = some j ∧
    (∀ b, j ∉ bkt ((_lookup s i).2) b) ∧
    (_map ((_lookup s i).2) i').data = s.data.set j (entry_of i') ∧
    (∀ k b, k ∈ bkt s b → k ≠ j →
      k ∈ bkt (_map ((_lookup s i).2) i') b ∧
      (_map ((_lookup s i).2) i').data.getD k default =
        s.data.getD k default) := by
  have heq : _lookup s i = (none, _remove_entry s j) :=
    lookup_scan_stale i _ s j (bkt_nodup h _) hj hid hct honly
  have hblen' : (_remove_entry s j).buckets.length = CACHE_HASH_BUCKETS := by
    show (bucket_del s.buckets j).length = _
    simpa [bucket_del] using h.1
  have hvic : (_remove_entry s j).lru.getLastD 0 = j := by
    show (s.lru.erase j ++ [j]).getLastD 0 = j
    exact List.getLastD_concat _ _ _
  refine ⟨by rw [heq], ?_, ?_, ?_, ?_⟩
  · rw [heq]
    exact List.getLast?_concat _
  · intro b
    rw [heq]
    show j ∉ bkt (_remove_entry s j) b
    rw [bkt_remove_entry]
    intro hmem
    exact ((bkt_nodup h b).mem_erase_iff.mp hmem).1 rfl
  · rw [heq]
    show (_map (_remove_entry s j) i').data = _
    rw [data_map, hvic]
    rfl
  · intro k b hk hkj
    rw [heq]
    have hk' : k ∈ bkt (_remove_entry s j) b := by
      rw [bkt_remove_entry]
      exact (List.mem_erase_of_ne hkj).mpr hk
    constructor
    · show k ∈ bkt (_map (_remove_entry s j) i') b
      rw [bkt_map _ _ hblen', hvic]
      split
      · exact List.mem_cons_of_mem _ ((List.mem_erase_of_ne hkj).mpr hk')
      · exact (List.mem_erase_of_ne hkj).mpr hk'
    · show (_map (_remove_entry s j) i').data.getD k default = _
      rw [data_map, hvic, getD_set_ne _ _ _ (fun he => hkj he.symm)]
      rfl

/-- Claim C3 witness: a 4-entry tracer holding the identity (5, 7) with ctime
(1, 1) at entry 0, looked up and re-inserted with ctime (2, 2). -/
theorem claim_C3_witness :
    (0 ∈ bkt state_C3 (hash_idx inoNew.i_ino) ∧
      id_matches (state_C3.data.getD 0 default) inoNew ∧
      ¬ (state_C3.data.getD 0 default).ctime = inoNew.i_ctime) ∧
    ((_lookup state_C3 inoNew).1 = none ∧
      ((_lookup state_C3 inoNew).2).lru.getLast? = some 0 ∧
      (∀ b, 0 ∉ bkt ((_lookup state_C3 inoNew).2) b) ∧
      (_map ((_lookup state_C3 inoNew).2) inoNew).data =
        state_C3.data.set 0 (entry_of inoNew) ∧
      (∀ k b, k ∈ bkt state_C3 b → k ≠ 0 →
        k ∈ bkt (_map ((_lookup state_C3 inoNew).2) inoNew) b ∧
        (_map ((_lookup state_C3 inoNew).2) inoNew).data.getD k default =
          state_C3.data.getD k default)) :=
  ⟨⟨by decide, by decide, by decide⟩,
   claim_C3 (by decide) inoNew inoNew 0 (by decide) (by decide) (by decide)
     (by decide) rfl rfl⟩

/-! ### Claim C4 -/

theorem getLastD_reverse_range {n : Nat} (hn : 0 < n) :
    ((List.range n).reverse).getLastD 0 = 0 := by
  have he : List.range n = 0 :: List.range' 1 (n - 1) := by
    rw [List.range_eq_range']
    have h2 : n = (n - 1) + 1 := by omega
    rw [h2, List.range'_succ]
    simp
  rw [he, List.reverse_cons, List.getLastD_concat]

theorem pairwise_ident_getD {ks : List Inode}
    (h : List.Pairwise (fun a b => ident a ≠ ident b) ks) {i j : Nat}
    (hi : i < ks.length) (hj : j < ks.length) (hne : i ≠ j) :
    ident (ks.getD i default) ≠ ident (ks.getD j default) := by
  rw [List.pairwise_iff_get] at h
  rw [List.getD_eq_getElem _ _ hi, List.getD_eq_getElem _ _ hj]
  rcases Nat.lt_or_ge i j with hij | hij
  · have hgot := h ⟨i, hi⟩ ⟨j, hj⟩ hij
    simpa [List.get_eq_getElem] using hgot
  · have hji : j < i := by omega
    have hgot := h ⟨j, hj⟩ ⟨i, hi⟩ hji
    simp only [List.get_eq_getElem] at hgot
    exact fun he => hgot he.symm

/-- Claim C4: the Identity Cache never holds more than CACHE_SIZE live
mappings; the entry arena is created with fixed size CACHE_SIZE and no
operation grows or shrinks it; insert always succeeds, taking the current
LRU tail as its victim; and inserting CACHE_SIZE + 1 distinct keys into an
initially empty cache with no intervening lookups evicts exactly the
first-inserted key, every later key remaining cached. -/
theorem claim_C4 :
    (∀ s : Tracer, wf s → s.data.length = CACHE_SIZE →
      live_mappings s ≤ CACHE_SIZE) ∧
    (∀ (n : Nat) (f : Bool),
      (iotrace_create_inode_tracer n f).data.length = n) ∧
    (∀ (s : Tracer) (i : Inode),
      (_map s i).data.length = s.data.length ∧
      ((_lookup s i).2).data.length = s.data.length) ∧
    (∀ (s : Tracer) (i : Inode),
      (_map s i).data = s.data.set (s.lru.getLastD 0) (entry_of i)) ∧
    (∀ (f : Bool) (k0 : Inode) (rest : List Inode),
      (k0 :: rest).length = CACHE_SIZE + 1 →
      List.Pairwise (fun a b => ident a ≠ ident b) (k0 :: rest) →
      ¬ cached (insert_all (iotrace_create_inode_tracer CACHE_SIZE f)
        (k0 :: rest)) k0 ∧
      (∀ k ∈ rest,
        cached (insert_all (iotrace_create_inode_tracer CACHE_SIZE f)
          (k0 :: rest)) k)) := by
  refine ⟨?_, ?_, ?_, ?_, ?_⟩
  · intro s hs hlen
    have hfn := hs.2.2.2.2.1
    have hfb := hs.2.2.2.2.2
    have hsub : bucketsJoin s ⊆ List.range CACHE_SIZE := fun j hj =>
      List.mem_range.mpr (hlen ▸ hfb j hj)
    have hle := (hfn.subperm hsub).length_le
    simpa using hle
  · intro n f
    simp [iotrace_create_inode_tracer]
  · intro s i
    exact ⟨data_length_map s i, by rw [lookup_data]⟩
  · intro s i
    exact data_map s i
  · intro f k0 rest hlen hpw
    have hnpos : 0 < CACHE_SIZE := by decide
    have hrl : rest.length = CACHE_SIZE := by simpa using hlen
    obtain ⟨hlru, hdata, hblen, hmem⟩ :=
      insert_all_take_inv CACHE_SIZE f (k0 :: rest) CACHE_SIZE (le_refl _)
        (by omega)
    set sN := insert_all (iotrace_create_inode_tracer CACHE_SIZE f)
      ((k0 :: rest).take CACHE_SIZE) with hsNdef
    have htake : (k0 :: rest).take (CACHE_SIZE + 1) = k0 :: rest := by
      rw [← hlen]
      exact List.take_length _
    have hstepF :
        insert_all (iotrace_create_inode_tracer CACHE_SIZE f) (k0 :: rest) =
          _map sN ((k0 :: rest).getD CACHE_SIZE default) := by
      conv_lhs => rw [← htake]
      rw [List.take_succ, List.getElem?_eq_getElem (by omega),
        insert_all, List.foldl_append,
        List.getD_eq_getElem _ _ (by omega)]
      rfl
    have hsNdata : sN.data = ((k0 :: rest).take CACHE_SIZE).map entry_of := by
      rw [hdata]
      simp
    have hsNlen : sN.data.length = CACHE_SIZE := by
      rw [hsNdata]
      simp [List.length_take]
      omega
    have hsNlru : sN.lru = (List.range CACHE_SIZE).reverse := by
      rw [hlru]
      simp
    have hvicF : sN.lru.getLastD 0 = 0 := by
      rw [hsNlru]
      exact getLastD_reverse_range hnpos
    have hwfN : wf sN :=
      wf_insert_all (wf_create _ f)
        (by simp only [iotrace_create_inode_tracer, List.length_replicate]
            decide) _
    have hwfF : wf (_map sN ((k0 :: rest).getD CACHE_SIZE default)) :=
      wf_map hwfN (hsNlen ▸ hnpos) _
    have hdataF : (_map sN ((k0 :: rest).getD CACHE_SIZE default)).data =
        (((k0 :: rest).take CACHE_SIZE).map entry_of).set 0
          (entry_of ((k0 :: rest).getD CACHE_SIZE default)) := by
      rw [data_map, hvicF, hsNdata]
    have htlen : (((k0 :: rest).take CACHE_SIZE).map entry_of).length =
        CACHE_SIZE := by
      simp [List.length_take]
      omega
    have hgetF : ∀ jj, jj < CACHE_SIZE →
        (_map sN ((k0 :: rest).getD CACHE_SIZE default)).data.getD jj
            default =
          if jj = 0 then entry_of ((k0 :: rest).getD CACHE_SIZE default)
          else entry_of ((k0 :: rest).getD jj default) := by
      intro jj hjj
      rw [hdataF]
      by_cases hz : jj = 0
      · subst hz
        rw [if_pos rfl, getD_set_self _ _ _ _ (by omega)]
      · rw [if_neg hz, getD_set_ne _ _ _ (fun he => hz he.symm),
          getD_map_entry _ (by simp [List.length_take]; omega)]
        congr 1
        rw [List.getD_eq_getElem _ _ (by simp [List.length_take]; omega),
          List.getD_eq_getElem _ _ (by simp; omega), List.getElem_take]
    constructor
    · rw [hstepF]
      rintro ⟨jj, hjmem, hjm⟩
      have hjlt : jj < CACHE_SIZE := by
        have h1 := hwfF.2.2.2.2.2 jj (bkt_subset_flatten _ _ jj hjmem)
        rw [data_length_map, hsNlen] at h1
        exact h1
      rw [hgetF jj hjlt] at hjm
      by_cases hz : jj = 0
      · rw [if_pos hz] at hjm
        have hident := entry_matches_ident hjm
        have hne := pairwise_ident_getD hpw (i := CACHE_SIZE) (j := 0)
          (by simp; omega) (by simp) (by omega)
        exact hne (by simpa using hident)
      · rw [if_neg hz] at hjm
        have hident := entry_matches_ident hjm
        have hne := pairwise_ident_getD hpw (i := jj) (j := 0)
          (by simp; omega) (by simp) hz
        exact hne (by simpa using hident)
    · intro k hk
      rw [hstepF]
      obtain ⟨t, hteq⟩ := List.mem_iff_get.mp hk
      rcases Nat.lt_or_ge (t.val + 1) CACHE_SIZE with hjn | hjn
      · have hmm := hmem (t.val + 1) hjn
        have hkeq : (k0 :: rest).getD (t.val + 1) default = k := by
          rw [List.getD_cons_succ, List.getD_eq_getElem _ _ t.isLt,
            ← List.get_eq_getElem]
          exact hteq
        have hmem' : (t.val + 1) ∈
            bkt (_map sN ((k0 :: rest).getD CACHE_SIZE default))
              (hash_idx ((k0 :: rest).getD (t.val + 1) default).i_ino) := by
          rw [bkt_map _ _ hblen, hvicF]
          split
          · exact List.mem_cons_of_mem _
              ((List.mem_erase_of_ne (by omega)).mpr hmm)
          · exact (List.mem_erase_of_ne (by omega)).mpr hmm
        rw [hkeq] at hmem'
        refine ⟨t.val + 1, hmem', ?_⟩
        rw [hgetF _ (by omega), if_neg (by omega), hkeq]
        exact ⟨⟨rfl, rfl⟩, rfl⟩
      · have hje : t.val + 1 = CACHE_SIZE := by
          have ht := t.isLt
          omega
        have hkeq : (k0 :: rest).getD CACHE_SIZE default = k := by
          rw [← hje, List.getD_cons_succ, List.getD_eq_getElem _ _ t.isLt,
            ← List.get_eq_getElem]
          exact hteq
        rw [hkeq]
        exact cached_map_self hwfN (by omega) k

theorem wcons : wKey 0 :: wRest = wKeys := by
  rw [wKeys, wRest, List.range_succ_eq_map, List.map_cons, List.map_map]
  rfl

theorem wKeys_pairwise :
    List.Pairwise (fun a b => ident a ≠ ident b) wKeys := by
  rw [wKeys, List.pairwise_map]
  have h := List.pairwise_lt_range (CACHE_SIZE + 1)
  refine h.imp ?_
  intro a b hab hc
  simp [ident, wKey] at hc
  omega

/-- Claim C4 witness: CACHE_SIZE + 1 concrete pairwise-distinct keys inserted
into a fresh tracer evict exactly the first key. -/
theorem claim_C4_witness :
    ((wKey 0 :: wRest).length = CACHE_SIZE + 1) ∧
    (¬ cached (insert_all (iotrace_create_inode_tracer CACHE_SIZE false)
        (wKey 0 :: wRest)) (wKey 0) ∧
      (∀ k ∈ wRest,
        cached (insert_all (iotrace_create_inode_tracer CACHE_SIZE false)
          (wKey 0 :: wRest)) k)) :=
  ⟨by simp [wRest],
   claim_C4.2.2.2.2 false (wKey 0) wRest (by simp [wRest])
     (by rw [wcons]; exact wKeys_pairwise)⟩

/-! ### Claim C5 -/

theorem id_matches_entry_of_ident {a b : Inode}
    (h : id_matches (entry_of a) b) : ident a = ident b := by
  obtain ⟨h1, h2⟩ := h
  simp only [entry_of] at h1 h2
  simp [ident, h1, h2]

/-- Claim C5: with capacity 3, after inserting distinct keys A, B, C, a
lookup of A hits (entry 0, promoted to most-recently-used), and a subsequent
insert of a new distinct key D evicts B while A stays cached. -/
theorem claim_C5 (f : Bool) (A B C D : Inode)
    (hpw : List.Pairwise (fun a b => ident a ≠ ident b) [A, B, C, D]) :
    (_lookup (insert_all (iotrace_create_inode_tracer 3 f) [A, B, C]) A).1
        = some 0 ∧
    ¬ cached
      (_map ((_lookup (insert_all (iotrace_create_inode_tracer 3 f)
        [A, B, C]) A).2) D) B ∧
    cached
      (_map ((_lookup (insert_all (iotrace_create_inode_tracer 3 f)
        [A, B, C]) A).2) D) A := by
  simp only [List.pairwise_cons, List.mem_cons, List.mem_singleton] at hpw
  have hAB : ident A ≠ ident B := hpw.1 B (by tauto)
  have hAC : ident A ≠ ident C := hpw.1 C (by tauto)
  have hAD : ident A ≠ ident D := hpw.1 D (by tauto)
  have hBC : ident B ≠ ident C := hpw.2.1 C (by tauto)
  have hBD : ident B ≠ ident D := hpw.2.1 D (by tauto)
  have hCD : ident C ≠ ident D := hpw.2.2.1 D (by tauto)
  obtain ⟨hlru, hdata, hblen, hmem⟩ :=
    insert_all_take_inv 3 f [A, B, C] 3 (le_refl 3) (by simp)
  have ht3 : [A, B, C].take 3 = [A, B, C] := rfl
  rw [ht3] at hlru hdata hblen hmem
  have hlru3 :
      (insert_all (iotrace_create_inode_tracer 3 f) [A, B, C]).lru =
        [2, 1, 0] := by
    rw [hlru]
    decide
  have hdata3 :
      (insert_all (iotrace_create_inode_tracer 3 f) [A, B, C]).data =
        [entry_of A, entry_of B, entry_of C] := by
    rw [hdata]
    rfl
  have hm0 := hmem 0 (by omega)
  have hm1 := hmem 1 (by omega)
  have hm2 := hmem 2 (by omega)
  rw [List.getD_cons_zero] at hm0
  rw [List.getD_cons_succ, List.getD_cons_zero] at hm1
  rw [List.getD_cons_succ, List.getD_cons_succ, List.getD_cons_zero] at hm2
  have hwf3 : wf (insert_all (iotrace_create_inode_tracer 3 f) [A, B, C]) :=
    wf_insert_all (wf_create 3 f)
      (by simp only [iotrace_create_inode_tracer, List.length_replicate]
          decide) _
  have hlen3 :
      (insert_all (iotrace_create_inode_tracer 3 f) [A, B, C]).data.length =
        3 := by
    rw [hdata3]
    rfl
  have hgetD : ∀ j, j < 3 →
      (insert_all (iotrace_create_inode_tracer 3 f) [A, B, C]).data.getD j
        default = [entry_of A, entry_of B, entry_of C].getD j default := by
    intro j hj
    rw [hdata3]
  have hhit : _lookup (insert_all (iotrace_create_inode_tracer 3 f)
      [A, B, C]) A = (some 0,
        _set_hot (insert_all (iotrace_create_inode_tracer 3 f) [A, B, C])
          0) := by
    apply lookup_scan_hit A _ _ 0 (bkt_nodup hwf3 _) hm0
    · rw [hgetD 0 (by omega)]
      exact ⟨⟨rfl, rfl⟩, rfl⟩
    · intro k hkL hk0
      have hklt : k < 3 := by
        have hb := hwf3.2.2.2.2.2 k (bkt_subset_flatten _ _ k hkL)
        omega
      intro hmm
      interval_cases k
      · exact hk0 rfl
      · rw [hgetD 1 (by omega)] at hmm
        exact hAB.symm (id_matches_entry_of_ident hmm)
      · rw [hgetD 2 (by omega)] at hmm
        exact hAC.symm (id_matches_entry_of_ident hmm)
  rw [hhit]
  refine ⟨rfl, ?_, ?_⟩
  · -- B is evicted by inserting D
    have hlru4 : (_set_hot (insert_all (iotrace_create_inode_tracer 3 f)
        [A, B, C]) 0).lru = [0, 2, 1] := by
      show 0 :: (insert_all (iotrace_create_inode_tracer 3 f)
        [A, B, C]).lru.erase 0 = _
      rw [hlru3]
      rfl
    have hvic4 : (_set_hot (insert_all (iotrace_create_inode_tracer 3 f)
        [A, B, C]) 0).lru.getLastD 0 = 1 := by
      rw [hlru4]
      rfl
    have hdata5 : (_map (_set_hot (insert_all
        (iotrace_create_inode_tracer 3 f) [A, B, C]) 0) D).data =
        [entry_of A, entry_of D, entry_of C] := by
      rw [data_map, hvic4, data_set_hot, hdata3]
      rfl
    have hwf4 : wf (_set_hot (insert_all (iotrace_create_inode_tracer 3 f)
        [A, B, C]) 0) := wf_set_hot hwf3 (by omega)
    have hwf5 : wf (_map (_set_hot (insert_all
        (iotrace_create_inode_tracer 3 f) [A, B, C]) 0) D) :=
      wf_map hwf4 (by show 0 < (insert_all (iotrace_create_inode_tracer 3 f)
        [A, B, C]).data.length; omega) D
    rintro ⟨j, hj, hm⟩
    have hjlt : j < 3 := by
      have hb := hwf5.2.2.2.2.2 j (bkt_subset_flatten _ _ j hj)
      rw [data_length_map] at hb
      have hb2 : (_set_hot (insert_all (iotrace_create_inode_tracer 3 f)
        [A, B, C]) 0).data.length = 3 := hlen3
      omega
    rw [hdata5] at hm
    interval_cases j
    · exact hAB (entry_matches_ident hm)
    · exact hBD.symm (entry_matches_ident hm)
    · exact hBC.symm (entry_matches_ident hm)
  · -- A stays cached
    have hlru4 : (_set_hot (insert_all (iotrace_create_inode_tracer 3 f)
        [A, B, C]) 0).lru = [0, 2, 1] := by
      show 0 :: (insert_all (iotrace_create_inode_tracer 3 f)
        [A, B, C]).lru.erase 0 = _
      rw [hlru3]
      rfl
    have hvic4 : (_set_hot (insert_all (iotrace_create_inode_tracer 3 f)
        [A, B, C]) 0).lru.getLastD 0 = 1 := by
      rw [hlru4]
      rfl
    have hdata5 : (_map (_set_hot (insert_all
        (iotrace_create_inode_tracer 3 f) [A, B, C]) 0) D).data =
        [entry_of A, entry_of D, entry_of C] := by
      rw [data_map, hvic4, data_set_hot, hdata3]
      rfl
    refine ⟨0, ?_, ?_⟩
    · rw [bkt_map _ _ (by exact hblen), hvic4]
      split
      · exact List.mem_cons_of_mem _
          ((List.mem_erase_of_ne (by omega)).mpr hm0)
      · exact (List.mem_erase_of_ne (by omega)).mpr hm0
    · rw [hdata5]
      exact ⟨⟨rfl, rfl⟩, rfl⟩

/-- Claim C5 witness at four concrete distinct keys. -/
theorem claim_C5_witness :
    List.Pairwise (fun a b => ident a ≠ ident b) [inoA, inoB, inoC, inoD] ∧
    ((_lookup (insert_all (iotrace_create_inode_tracer 3 false)
        [inoA, inoB, inoC]) inoA).1 = some 0 ∧
      ¬ cached
        (_map ((_lookup (insert_all (iotrace_create_inode_tracer 3 false)
          [inoA, inoB, inoC]) inoA).2) inoD) inoB ∧
      cached
        (_map ((_lookup (insert_all (iotrace_create_inode_tracer 3 false)
          [inoA, inoB, inoC]) inoA).2) inoD) inoA) :=
  ⟨by decide, claim_C5 false inoA inoB inoC inoD (by decide)⟩

/-! ### Walk step lemmas -/

theorem walk_step_hit (w : WalkSt) (this : Inode) (rest : List Inode)
    (hc : cached w.tracer this) :
    iotrace_trace_inode_loop w (this :: rest) =
      ({ w with tracer := (_lookup w.tracer this).2 }, []) := by
  have h1 : (_lookup w.tracer this).1.isSome := (lookup_isSome_iff _ _).mpr hc
  obtain ⟨j, hj⟩ := Option.isSome_iff_exists.mp h1
  have heq : _lookup w.tracer this = (some j, (_lookup w.tracer this).2) := by
    rw [← hj]
  rw [iotrace_trace_inode_loop, heq]

theorem walk_step_miss_ok (w : WalkSt) (this : Inode) (rest : List Inode)
    (hmiss : ¬ cached w.tracer this) (hok : w.sink.headD true = true) :
    ∃ m2 r2,
      iotrace_trace_inode_loop w (this :: rest) =
        ((iotrace_trace_inode_loop
            ⟨_map (_lookup w.tracer this).2 this, m2, w.sink.tail, r2⟩
            rest).1,
         mk_name_event this rest.head? ::
           (iotrace_trace_inode_loop
             ⟨_map (_lookup w.tracer this).2 this, m2, w.sink.tail, r2⟩
             rest).2) := by
  have h1 : (_lookup w.tracer this).1 = none := (lookup_none_iff _ _).mpr hmiss
  have hnone : _lookup w.tracer this = (none, (_lookup w.tracer this).2) := by
    rw [← h1]
  rw [iotrace_trace_inode_loop, hnone]
  have hok' : w.sink.head?.getD true = true := by simpa using hok
  cases hh : rest.head? with
  | none =>
    refine ⟨w.marks, w.reg, ?_⟩
    simp [hok']
  | some p =>
    by_cases hdir : p.is_dir && w.tracer.fsm_present
    · refine ⟨(_fs_add_mark_reg w.marks w.reg p.i_ino).1,
        (_fs_add_mark_reg w.marks w.reg p.i_ino).2, ?_⟩
      simp [hok', hdir]
    · refine ⟨w.marks, w.reg, ?_⟩
      simp [hok', hdir]

theorem walk_step_miss_fail (w : WalkSt) (this : Inode) (rest : List Inode)
    (hmiss : ¬ cached w.tracer this) (hfail : w.sink.headD true = false) :
    ∃ m2 r2,
      iotrace_trace_inode_loop w (this :: rest) =
        ((iotrace_trace_inode_loop
            ⟨(_lookup w.tracer this).2, m2, w.sink.tail, r2⟩ rest).1,
         (iotrace_trace_inode_loop
           ⟨(_lookup w.tracer this).2, m2, w.sink.tail, r2⟩ rest).2) := by
  have h1 : (_lookup w.tracer this).1 = none := (lookup_none_iff _ _).mpr hmiss
  have hnone : _lookup w.tracer this = (none, (_lookup w.tracer this).2) := by
    rw [← h1]
  rw [iotrace_trace_inode_loop, hnone]
  have hfail' : w.sink.head?.getD true = false := by simpa using hfail
  cases hh : rest.head? with
  | none =>
    refine ⟨w.marks, w.reg, ?_⟩
    simp [hfail']
  | some p =>
    by_cases hdir : p.is_dir && w.tracer.fsm_present
    · refine ⟨(_fs_add_mark_reg w.marks w.reg p.i_ino).1,
        (_fs_add_mark_reg w.marks w.reg p.i_ino).2, ?_⟩
      simp [hfail', hdir]
    · refine ⟨w.marks, w.reg, ?_⟩
      simp [hfail', hdir]

theorem walk_records_length (w : WalkSt) (chain : List Inode) :
    ((iotrace_trace_inode_loop w chain).2).length ≤ chain.length := by
  induction chain generalizing w with
  | nil => simp [iotrace_trace_inode_loop]
  | cons this rest ih =>
    by_cases hc : cached w.tracer this
    · rw [walk_step_hit w this rest hc]
      simp
    · by_cases hok : w.sink.headD true = true
      · obtain ⟨m2, r2, heq⟩ := walk_step_miss_ok w this rest hc hok
        rw [heq]
        simpa using Nat.succ_le_succ (ih _)
      · have hfail : w.sink.headD true = false := by
          cases hB : w.sink.headD true
          · rfl
          · exact absurd hB hok
        obtain ⟨m2, r2, heq⟩ := walk_step_miss_fail w this rest hc hfail
        rw [heq]
        refine le_trans (ih _) ?_
        simp

/-! ### Claim C9 -/

/-- Claim C9: the walk terminates, visiting the finite dentry chain at most
once — it emits at most one naming record per chain element and stops
immediately, emitting nothing, when the first lookup hits; the iteration ends
at the mount root, whose resolution yields no parent. -/
theorem claim_C9 (w : WalkSt) (chain : List Inode) :
    ((iotrace_trace_inode w chain).2).length ≤ chain.length ∧
    (∀ this rest, chain = this :: rest → cached w.tracer this →
      (iotrace_trace_inode w chain).2 = []) := by
  constructor
  · exact walk_records_length w chain
  · rintro this rest rfl hc
    rw [iotrace_trace_inode, walk_step_hit w this rest hc]

/-- Claim C9 witness: a one-element chain whose object is already cached. -/
theorem claim_C9_witness :
    ([inoA] = inoA :: ([] : List Inode) ∧
      cached (_map (iotrace_create_inode_tracer 4 false) inoA) inoA) ∧
    (((iotrace_trace_inode
        ⟨_map (iotrace_create_inode_tracer 4 false) inoA, [], [], []⟩
        [inoA]).2).length ≤ 1 ∧
      (iotrace_trace_inode
        ⟨_map (iotrace_create_inode_tracer 4 false) inoA, [], [], []⟩
        [inoA]).2 = []) :=
  ⟨⟨rfl, by decide⟩,
   ⟨(claim_C9 ⟨_map (iotrace_create_inode_tracer 4 false) inoA, [], [], []⟩
       [inoA]).1,
    (claim_C9 ⟨_map (iotrace_create_inode_tracer 4 false) inoA, [], [], []⟩
       [inoA]).2 inoA [] rfl (by decide)⟩⟩

/-! ### Claim C2 -/

/-- Claim C2 counterexample: on a three-level chain with the sink full for
exactly the first record, the walk does not abort at the failed object — the
two ancestors are still processed, their two records are emitted, and the
parent is inserted into the cache, where the claim as stated requires the
walk to stop with no further ancestor processed or emitted. -/
theorem claim_C2_cex :
    ((iotrace_trace_inode
        ⟨iotrace_create_inode_tracer 8 false, [], [false], []⟩
        [obj_O, obj_P, obj_G]).2).length = 2 ∧
    cached (iotrace_trace_inode
        ⟨iotrace_create_inode_tracer 8 false, [], [false], []⟩
        [obj_O, obj_P, obj_G]).1.tracer obj_P := by
  constructor
  · decide
  · decide

/-- Claim C2 (amended): if emission of the current object's record fails, the
object is not inserted into the Identity Cache — the cache has seen only the
lookup's stale unlinking — but the walk does not abort: it continues with the
ancestor chain, from exactly the lookup-mutated cache state with the sink
advanced. -/
theorem claim_C2 (w : WalkSt) (this : Inode) (rest : List Inode)
    (hmiss : ¬ cached w.tracer this) (hfail : w.sink.headD true = false) :
    ∃ m2 r2,
      iotrace_trace_inode w (this :: rest) =
        iotrace_trace_inode_loop
          ⟨(_lookup w.tracer this).2, m2, w.sink.tail, r2⟩ rest ∧
      ¬ cached (_lookup w.tracer this).2 this := by
  obtain ⟨m2, r2, heq⟩ := walk_step_miss_fail w this rest hmiss hfail
  exact ⟨m2, r2, by rw [iotrace_trace_inode, heq],
    not_cached_lookup hmiss this⟩

/-- Claim C2 witness: a fresh 4-entry tracer, a failing sink and a two-level
chain. -/
theorem claim_C2_witness :
    (¬ cached (iotrace_create_inode_tracer 4 false) inoA ∧
      ([false] : List Bool).headD true = false) ∧
    (∃ m2 r2,
      iotrace_trace_inode
          ⟨iotrace_create_inode_tracer 4 false, [], [false], []⟩
          [inoA, inoB] =
        iotrace_trace_inode_loop
          ⟨(_lookup (iotrace_create_inode_tracer 4 false) inoA).2, m2,
            ([false] : List Bool).tail, r2⟩ [inoB] ∧
      ¬ cached (_lookup (iotrace_create_inode_tracer 4 false) inoA).2 inoA) :=
  ⟨⟨by decide, by decide⟩,
   claim_C2 ⟨iotrace_create_inode_tracer 4 false, [], [false], []⟩ inoA
     [inoB] (by decide) (by decide)⟩

/-! ### Claim C1 -/

theorem getLastD_append_right {pre l : List Nat} (hne : l ≠ []) (d : Nat) :
    (pre ++ l).getLastD d = l.getLastD d := by
  rw [List.getLastD_eq_getLast?, List.getLastD_eq_getLast?,
    List.getLast?_append]
  cases hl : l.getLast? with
  | none => exact absurd (List.getLast?_eq_none_iff.mp hl) hne
  | some a => rfl

theorem not_id_matches_of_ident {a b : Inode} (h : ident a ≠ ident b) :
    ¬ id_matches (entry_of a) b :=
  fun hm => h (id_matches_entry_of_ident hm)

theorem not_entry_matches_of_ident {a b : Inode} (h : ident a ≠ ident b) :
    ¬ entry_matches (entry_of a) b :=
  fun hm => h (entry_matches_ident hm)

theorem cached_elim {s : Tracer} {i : Inode} (h : ¬ cached s i) :
    ∀ j ∈ bkt s (hash_idx i.i_ino),
      ¬ entry_matches (s.data.getD j default) i :=
  fun j hj hm => h ⟨j, hj, hm⟩

/-- Claim C1 (amended): resolving an uncached object O with uncached parent P
and uncached grandparent G, G being the mount root, emits exactly THREE
naming records — O with parent P, P with parent G, and G itself with parent
id 0 and zeroed ctime (the terminal record for the mount root, whose
resolution yields no parent inode) — and inserts O, P and G into the
Identity Cache, nothing else becoming newly cached; an immediately following
walk on the same O emits 0 further records. -/
theorem claim_C1 (w : WalkSt) (O P G : Inode)
    (hwf : wf w.tracer) (hn : 3 ≤ w.tracer.data.length)
    (hsink : w.sink = [])
    (hOP : ident O ≠ ident P) (hOG : ident O ≠ ident G)
    (hPG : ident P ≠ ident G)
    (hcO : ¬ cached w.tracer O) (hcP : ¬ cached w.tracer P)
    (hcG : ¬ cached w.tracer G) :
    (iotrace_trace_inode w [O, P, G]).2 =
      [mk_name_event O (some P), mk_name_event P (some G),
       mk_name_event G none] ∧
    cached (iotrace_trace_inode w [O, P, G]).1.tracer O ∧
    cached (iotrace_trace_inode w [O, P, G]).1.tracer P ∧
    cached (iotrace_trace_inode w [O, P, G]).1.tracer G ∧
    (∀ x : Inode, ¬ cached w.tracer x →
      ¬ entry_matches (entry_of O) x →
      ¬ entry_matches (entry_of P) x →
      ¬ entry_matches (entry_of G) x →
      ¬ cached (iotrace_trace_inode w [O, P, G]).1.tracer x) ∧
    (iotrace_trace_inode (iotrace_trace_inode w [O, P, G]).1 [O, P, G]).2
      = [] := by
  set s := w.tracer with hsdef
  set s0 := (_lookup s O).2 with hs0
  have hwf0 : wf s0 := wf_lookup hwf O
  have hl0 : s0.data.length = s.data.length := by
    rw [hs0, lookup_data]
  have h0pos : 0 < s0.data.length := by omega
  set t1 := _map s0 O with ht1
  have hwf1 : wf t1 := wf_map hwf0 h0pos O
  have hl1 : t1.data.length = s.data.length := by
    rw [ht1, data_length_map]
    exact hl0
  set vO := s0.lru.getLastD 0 with hvO
  have hvO_lt : vO < s0.data.length := victim_lt hwf0 h0pos
  have hvO_data : t1.data.getD vO default = entry_of O := by
    rw [ht1, data_map, ← hvO, getD_set_self _ _ _ _ hvO_lt]
  have hvO_bkt : vO ∈ bkt t1 (hash_idx O.i_ino) := by
    rw [ht1, bkt_map _ _ hwf0.1, if_pos rfl, ← hvO]
    exact List.mem_cons_self _ _
  have ht1lru : t1.lru = [vO] ++ s0.lru.dropLast := by
    rw [ht1, lru_map, ← hvO]
    rfl
  have hlrulen0 : s0.lru.length = s.data.length := by
    rw [hwf0.2.2.1]
    exact hl0
  have hl1len : (s0.lru.dropLast).length = s.data.length - 1 := by
    rw [List.length_dropLast, hlrulen0]
  have hcP1 : ¬ cached t1 P := by
    rw [ht1]
    refine not_cached_map hwf0 h0pos ?_ (not_entry_matches_of_ident hOP)
    rw [hs0]
    exact not_cached_lookup hcP O
  have hL1 : ∀ j ∈ bkt t1 (hash_idx P.i_ino),
      id_matches (t1.data.getD j default) P → j ∈ s0.lru.dropLast := by
    intro j hj hm
    have hjlt : j < t1.data.length :=
      hwf1.2.2.2.2.2 j (bkt_subset_flatten t1 _ j hj)
    have hjmem : j ∈ t1.lru := (mem_lru_iff hwf1).mpr hjlt
    rw [ht1lru] at hjmem
    rcases List.mem_append.mp hjmem with hjv | hjten
    · exfalso
      have hje : j = vO := by simpa using hjv
      rw [hje, hvO_data] at hm
      exact hOP (id_matches_entry_of_ident hm)
    · exact hjten
  set s1 := (_lookup t1 P).2 with hs1
  have hwfs1 : wf s1 := wf_lookup hwf1 P
  have hls1 : s1.data.length = s.data.length := by
    rw [hs1, lookup_data]
    exact hl1
  have hdata_s1 : s1.data = t1.data := by rw [hs1, lookup_data]
  obtain ⟨l1x, hs1lru0, hperm1⟩ :=
    lookup_scan_lru_prefix P (bkt t1 (hash_idx P.i_ino)) [vO]
      (s0.lru.dropLast) ht1lru hwf1.2.1 hL1 (cached_elim hcP1)
  have hs1lru : s1.lru = [vO] ++ l1x := hs1lru0
  have hl1x_len : l1x.length = s.data.length - 1 := by
    rw [hperm1.length_eq, hl1len]
  have hl1x_ne : l1x ≠ [] := by
    intro he
    rw [he] at hl1x_len
    simp at hl1x_len
    omega
  set vP := s1.lru.getLastD 0 with hvP
  have hvP_eq : vP = l1x.getLastD 0 := by
    rw [hvP, hs1lru, getLastD_append_right hl1x_ne]
  have hvP_mem : vP ∈ l1x := by
    rw [hvP_eq]
    exact getLastD_mem hl1x_ne 0
  have hvPvO : vP ≠ vO := by
    have hs1nd := hwfs1.2.1
    rw [hs1lru, List.nodup_append] at hs1nd
    intro he
    exact hs1nd.2.2 (show vO ∈ [vO] by simp) (he ▸ hvP_mem)
  set t2 := _map s1 P with ht2
  have hwf2 : wf t2 := wf_map hwfs1 (by omega) P
  have hl2 : t2.data.length = s.data.length := by
    rw [ht2, data_length_map]
    exact hls1
  have hvP_lt : vP < s1.data.length := victim_lt hwfs1 (by omega)
  have hvP_data : t2.data.getD vP default = entry_of P := by
    rw [ht2, data_map, ← hvP, getD_set_self _ _ _ _ hvP_lt]
  have hvP_bkt : vP ∈ bkt t2 (hash_idx P.i_ino) := by
    rw [ht2, bkt_map _ _ hwfs1.1, if_pos rfl, ← hvP]
    exact List.mem_cons_self _ _
  have hvO_bkt_s1 : vO ∈ bkt s1 (hash_idx O.i_ino) := by
    rw [hs1]
    exact lookup_mem_preserved P
      (by rw [hvO_data]; exact not_id_matches_of_ident hOP) hvO_bkt
  have hvO_data_s1 : s1.data.getD vO default = entry_of O := by
    rw [hdata_s1]
    exact hvO_data
  have hvO_bkt_t2 : vO ∈ bkt t2 (hash_idx O.i_ino) := by
    rw [ht2, bkt_map _ _ hwfs1.1, ← hvP]
    split
    · exact List.mem_cons_of_mem _
        ((List.mem_erase_of_ne (fun he => hvPvO he.symm)).mpr hvO_bkt_s1)
    · exact (List.mem_erase_of_ne (fun he => hvPvO he.symm)).mpr hvO_bkt_s1
  have hvO_data_t2 : t2.data.getD vO default = entry_of O := by
    rw [ht2, data_map, ← hvP, getD_set_ne _ _ _ hvPvO, hvO_data_s1]
  have ht2lru : t2.lru = [vP, vO] ++ l1x.dropLast := by
    rw [ht2, lru_map, ← hvP, hs1lru,
      List.dropLast_append_of_ne_nil _ hl1x_ne]
    rfl
  have hl2len : (l1x.dropLast).length = s.data.length - 2 := by
    rw [List.length_dropLast, hl1x_len]
    omega
  have hl2ne : l1x.dropLast ≠ [] := by
    intro he
    rw [he] at hl2len
    simp at hl2len
    omega
  have hcG2 : ¬ cached t2 G := by
    rw [ht2]
    refine not_cached_map hwfs1 (by omega) ?_ (not_entry_matches_of_ident hPG)
    rw [hs1]
    refine not_cached_lookup ?_ P
    rw [ht1]
    refine not_cached_map hwf0 h0pos ?_ (not_entry_matches_of_ident hOG)
    rw [hs0]
    exact not_cached_lookup hcG O
  have hL2 : ∀ j ∈ bkt t2 (hash_idx G.i_ino),
      id_matches (t2.data.getD j default) G → j ∈ l1x.dropLast := by
    intro j hj hm
    have hjlt : j < t2.data.length :=
      hwf2.2.2.2.2.2 j (bkt_subset_flatten t2 _ j hj)
    have hjmem : j ∈ t2.lru := (mem_lru_iff hwf2).mpr hjlt
    rw [ht2lru] at hjmem
    rcases List.mem_append.mp hjmem with hjv | hjten
    · exfalso
      rcases List.mem_cons.mp hjv with hje | hjv2
      · rw [hje, hvP_data] at hm
        exact hPG (id_matches_entry_of_ident hm)
      · have hje : j = vO := by simpa using hjv2
        rw [hje, hvO_data_t2] at hm
        exact hOG (id_matches_entry_of_ident hm)
    · exact hjten
  set s2 := (_lookup t2 G).2 with hs2
  have hwfs2 : wf s2 := wf_lookup hwf2 G
  have hls2 : s2.data.length = s.data.length := by
    rw [hs2, lookup_data]
    exact hl2
  have hdata_s2 : s2.data = t2.data := by rw [hs2, lookup_data]
  obtain ⟨l2x, hs2lru0, hperm2⟩ :=
    lookup_scan_lru_prefix G (bkt t2 (hash_idx G.i_ino)) [vP, vO]
      (l1x.dropLast) ht2lru hwf2.2.1 hL2 (cached_elim hcG2)
  have hs2lru : s2.lru = [vP, vO] ++ l2x := hs2lru0
  have hl2x_len : l2x.length = s.data.length - 2 := by
    rw [hperm2.length_eq, hl2len]
  have hl2x_ne : l2x ≠ [] := by
    intro he
    rw [he] at hl2x_len
    simp at hl2x_len
    omega
  set vG := s2.lru.getLastD 0 with hvG
  have hvG_eq : vG = l2x.getLastD 0 := by
    rw [hvG, hs2lru, getLastD_append_right hl2x_ne]
  have hvG_mem : vG ∈ l2x := by
    rw [hvG_eq]
    exact getLastD_mem hl2x_ne 0
  have hdisj : ∀ a ∈ [vP, vO], a ∉ l2x := by
    have hs2nd := hwfs2.2.1
    rw [hs2lru, List.nodup_append] at hs2nd
    exact fun a ha hal => hs2nd.2.2 ha hal
  have hvGvP : vG ≠ vP := fun he => hdisj vP (by simp) (he ▸ hvG_mem)
  have hvGvO : vG ≠ vO := fun he => hdisj vO (by simp) (he ▸ hvG_mem)
  set t3 := _map s2 G with ht3
  have hcachedG : cached t3 G := by
    rw [ht3]
    exact cached_map_self hwfs2 (by omega) G
  have hvP_bkt_s2 : vP ∈ bkt s2 (hash_idx P.i_ino) := by
    rw [hs2]
    exact lookup_mem_preserved G
      (by rw [hvP_data]; exact not_id_matches_of_ident hPG) hvP_bkt
  have hvO_bkt_s2 : vO ∈ bkt s2 (hash_idx O.i_ino) := by
    rw [hs2]
    exact lookup_mem_preserved G
      (by rw [hvO_data_t2]; exact not_id_matches_of_ident hOG) hvO_bkt_t2
  have hvP_data_s2 : s2.data.getD vP default = entry_of P := by
    rw [hdata_s2]
    exact hvP_data
  have hvO_data_s2 : s2.data.getD vO default = entry_of O := by
    rw [hdata_s2]
    exact hvO_data_t2
  have hcachedP : cached t3 P := by
    refine ⟨vP, ?_, ?_⟩
    · rw [ht3, bkt_map _ _ hwfs2.1, ← hvG]
      split
      · exact List.mem_cons_of_mem _
          ((List.mem_erase_of_ne (fun he => hvGvP he.symm)).mpr hvP_bkt_s2)
      · exact (List.mem_erase_of_ne (fun he => hvGvP he.symm)).mpr hvP_bkt_s2
    · rw [ht3, data_map, ← hvG, getD_set_ne _ _ _ hvGvP, hvP_data_s2]
      exact ⟨⟨rfl, rfl⟩, rfl⟩
  have hcachedO : cached t3 O := by
    refine ⟨vO, ?_, ?_⟩
    · rw [ht3, bkt_map _ _ hwfs2.1, ← hvG]
      split
      · exact List.mem_cons_of_mem _
          ((List.mem_erase_of_ne (fun he => hvGvO he.symm)).mpr hvO_bkt_s2)
      · exact (List.mem_erase_of_ne (fun he => hvGvO he.symm)).mpr hvO_bkt_s2
    · rw [ht3, data_map, ← hvG, getD_set_ne _ _ _ hvGvO, hvO_data_s2]
      exact ⟨⟨rfl, rfl⟩, rfl⟩
  have hnotnew : ∀ x : Inode, ¬ cached s x →
      ¬ entry_matches (entry_of O) x → ¬ entry_matches (entry_of P) x →
      ¬ entry_matches (entry_of G) x → ¬ cached t3 x := by
    intro x hx hxO hxP hxG
    rw [ht3]
    refine not_cached_map hwfs2 (by omega) ?_ hxG
    rw [hs2]
    refine not_cached_lookup ?_ G
    rw [ht2]
    refine not_cached_map hwfs1 (by omega) ?_ hxP
    rw [hs1]
    refine not_cached_lookup ?_ P
    rw [ht1]
    refine not_cached_map hwf0 h0pos ?_ hxO
    rw [hs0]
    exact not_cached_lookup hx O
  have hsh : w.sink.headD true = true := by
    rw [hsink]
    rfl
  have hst : w.sink.tail = [] := by
    rw [hsink]
    rfl
  obtain ⟨mA, rA, he1⟩ := walk_step_miss_ok w O [P, G] hcO hsh
  rw [hst] at he1
  simp only [List.head?_cons] at he1
  rw [← hsdef, ← hs0, ← ht1] at he1
  obtain ⟨mB, rB, he2⟩ :=
    walk_step_miss_ok ⟨t1, mA, [], rA⟩ P [G] hcP1 rfl
  simp only [List.head?_cons, List.tail_nil] at he2
  rw [← hs1, ← ht2] at he2
  obtain ⟨mC, rC, he3⟩ :=
    walk_step_miss_ok ⟨t2, mB, [], rB⟩ G [] hcG2 rfl
  simp only [List.head?_nil, List.tail_nil] at he3
  rw [← hs2, ← ht3] at he3
  have hbase : iotrace_trace_inode_loop
      (⟨t3, mC, List.tail [], rC⟩ : WalkSt) [] =
      (⟨t3, mC, List.tail [], rC⟩, []) := rfl
  have hmain : iotrace_trace_inode w [O, P, G] =
      ((⟨t3, mC, List.tail [], rC⟩ : WalkSt),
       [mk_name_event O (some P), mk_name_event P (some G),
        mk_name_event G none]) := by
    rw [iotrace_trace_inode, he1, he2, he3]
    rfl
  refine ⟨?_, ?_, ?_, ?_, ?_, ?_⟩
  · rw [hmain]
  · rw [hmain]
    exact hcachedO
  · rw [hmain]
    exact hcachedP
  · rw [hmain]
    exact hcachedG
  · intro x hx h1 h2 h3
    rw [hmain]
    exact hnotnew x hx h1 h2 h3
  · rw [hmain]
    show (iotrace_trace_inode (⟨t3, mC, List.tail [], rC⟩ : WalkSt)
      [O, P, G]).2 = []
    rw [iotrace_trace_inode,
      walk_step_hit (⟨t3, mC, List.tail [], rC⟩ : WalkSt) O [P, G] hcachedO]

/-- Claim C1 counterexample: on a fresh CACHE_SIZE tracer, resolving a
three-level chain whose grandparent G is the mount root emits 3 naming
records, not 2 as claimed, and G itself is inserted into the Identity Cache
as well. -/
theorem claim_C1_cex :
    ((iotrace_trace_inode
        ⟨iotrace_create_inode_tracer 8 false, [], [], []⟩
        [obj_O, obj_P, obj_G]).2).length = 3 ∧
    cached (iotrace_trace_inode
        ⟨iotrace_create_inode_tracer 8 false, [], [], []⟩
        [obj_O, obj_P, obj_G]).1.tracer obj_G := by
  constructor
  · decide
  · decide

/-- Claim C1 witness: the three-level chain walked over a fresh tracer. -/
theorem claim_C1_witness :
    (wf (iotrace_create_inode_tracer 8 false) ∧
      3 ≤ (iotrace_create_inode_tracer 8 false).data.length ∧
      ident obj_O ≠ ident obj_P ∧
      ¬ cached (iotrace_create_inode_tracer 8 false) obj_O ∧
      ¬ cached (iotrace_create_inode_tracer 8 false) obj_P ∧
      ¬ cached (iotrace_create_inode_tracer 8 false) obj_G) ∧
    ((iotrace_trace_inode
        ⟨iotrace_create_inode_tracer 8 false, [], [], []⟩
        [obj_O, obj_P, obj_G]).2 =
      [mk_name_event obj_O (some obj_P), mk_name_event obj_P (some obj_G),
       mk_name_event obj_G none] ∧
    cached (iotrace_trace_inode
        ⟨iotrace_create_inode_tracer 8 false, [], [], []⟩
        [obj_O, obj_P, obj_G]).1.tracer obj_O ∧
    cached (iotrace_trace_inode
        ⟨iotrace_create_inode_tracer 8 false, [], [], []⟩
        [obj_O, obj_P, obj_G]).1.tracer obj_P ∧
    cached (iotrace_trace_inode
        ⟨iotrace_create_inode_tracer 8 false, [], [], []⟩
        [obj_O, obj_P, obj_G]).1.tracer obj_G ∧
    (∀ x : Inode,
      ¬ cached (⟨iotrace_create_inode_tracer 8 false, [], [], []⟩ :
        WalkSt).tracer x →
      ¬ entry_matches (entry_of obj_O) x →
      ¬ entry_matches (entry_of obj_P) x →
      ¬ entry_matches (entry_of obj_G) x →
      ¬ cached (iotrace_trace_inode
        ⟨iotrace_create_inode_tracer 8 false, [], [], []⟩
        [obj_O, obj_P, obj_G]).1.tracer x) ∧
    (iotrace_trace_inode (iotrace_trace_inode
        ⟨iotrace_create_inode_tracer 8 false, [], [], []⟩
        [obj_O, obj_P, obj_G]).1 [obj_O, obj_P, obj_G]).2 = []) :=
  ⟨⟨wf_create 8 false, by simp [iotrace_create_inode_tracer],
    by decide, by decide, by decide, by decide⟩,
   claim_C1 ⟨iotrace_create_inode_tracer 8 false, [], [], []⟩
     obj_O obj_P obj_G (wf_create 8 false)
     (by simp [iotrace_create_inode_tracer]) rfl (by decide) (by decide)
     (by decide) (by decide) (by decide) (by decide)⟩

end InodeTrace
